import Mathlib

/-!
# Throughput-benchmark endpoints: HTTP handlers and measure clients

A shallow embedding of `cmd/gohttp1/serve.go`, `cmd/gohttp2c/serve.go`,
`cmd/gohttp1/measure.go`, `cmd/gohttp2/measure.go` and `cmd/ndt7/measure.go`,
with the pieces of the Go library they call: `strconv`, `io`, `net/url`, and of
`net/http` the response writer, the request body, the pattern `/{size}` of the
mux and the way a request a client sends reaches a handler.

Conventions of the embedding:

* a byte is a `Nat`, a byte slice is a `List Nat`; `int64` values are `Int`;
* a Go reader is a state together with `Read : state → len(p) → (data, err, state)`,
  where `data` is what was stored in `p[0:n]`;
* loops that Go runs until the stream ends take a fuel argument: when the fuel
  runs out before the loop ends, the copy and the handler return `none`, and a
  client run has its effects so far and no exit.
-/

namespace Http2Perf

deriving instance DecidableEq for Except

/-! ## `strconv` -/

namespace strconv

/-- The two sentinel errors of `strconv.NumError`. -/
inductive NumError where
  | ErrSyntax
  | ErrRange
  deriving DecidableEq, Repr

/-- Largest `uint64`. -/
def maxUint64 : Nat := 2 ^ 64 - 1

/-- The digit loop of `strconv.ParseUint(s, 10, 64)`: `n` is the accumulator.
A byte that is not a decimal digit is a syntax error (letters are digits `≥ 10`,
rejected by `d >= base`; the underscore is only legal for base 0); the two
range checks return at once, before the remaining bytes are inspected. -/
def parseUintLoop : List Char → Nat → Except NumError Nat
  | [], n => .ok n
  | c :: cs, n =>
    if '0' ≤ c ∧ c ≤ '9' then
      let d := c.toNat - '0'.toNat
      if n ≥ maxUint64 / 10 + 1 then .error .ErrRange
      else
        let n10 := (n * 10) % 2 ^ 64
        let n1 := (n10 + d) % 2 ^ 64
        if n1 < n10 ∨ n1 > maxUint64 then .error .ErrRange
        else parseUintLoop cs n1
    else .error .ErrSyntax

/-- `strconv.ParseUint(s, 10, 64)` on the bytes of `s`. -/
def ParseUint (s : List Char) : Except NumError Nat :=
  match s with
  | [] => .error .ErrSyntax
  | _ => parseUintLoop s 0

/-- `strconv.ParseInt(s, 10, 64)`. Go returns a value next to a non-nil error;
every caller here drops that value, so the error case carries none. -/
def ParseInt (s : String) : Except NumError Int :=
  match s.toList with
  | [] => .error .ErrSyntax
  | c :: cs =>
    let neg := decide (c = '-')
    let rest := if c = '+' then cs else if c = '-' then cs else c :: cs
    match ParseUint rest with
    | .error e => .error e
    | .ok un =>
      if !neg && decide (un ≥ 2 ^ 63) then .error .ErrRange
      else if neg && decide (un > 2 ^ 63) then .error .ErrRange
      else .ok (if neg then -(un : Int) else (un : Int))

/-- `strconv.FormatInt(i, 10)`: a minus sign for negatives, then the decimal digits. -/
def FormatInt (i : Int) : String :=
  if i < 0 then "-" ++ String.mk (Nat.toDigits 10 i.natAbs)
  else String.mk (Nat.toDigits 10 i.toNat)

end strconv

/-! ## `io` -/

namespace io

/-- Errors a stream operation can return. `transport` stands for any error of
the connection (reset, truncated body, ...). -/
inductive Error where
  | EOF
  | ErrShortWrite
  | errInvalidWrite
  | transport (code : Nat)
  deriving DecidableEq, Repr

/-- What one `Read(p)` returns: the bytes stored in `p[0:n]`, the error, and the
reader afterwards. -/
structure ReadResult (ρ : Type) where
  data : List Nat
  err : Option Error
  next : ρ

/-- What one `Write(p)` returns: `n`, the error, and the writer afterwards. -/
structure WriteResult (ω : Type) where
  n : Int
  err : Option Error
  next : ω

/-- The interface `io.Reader`; the `Nat` is `len(p)`. -/
class Reader (ρ : Type) where
  Read : ρ → Nat → ReadResult ρ

/-- The interface `io.Writer`. -/
class Writer (ω : Type) where
  Write : ω → List Nat → WriteResult ω

/-- The type `io.LimitedReader`. -/
structure LimitedReader (ρ : Type) where
  R : ρ
  N : Int
  deriving DecidableEq, Repr

/-- `io.LimitReader(r, n)`. -/
def LimitReader {ρ : Type} (r : ρ) (n : Int) : LimitedReader ρ := ⟨r, n⟩

/-- `(*io.LimitedReader).Read`: end of stream once `N <= 0`, otherwise the
buffer is cut to `N` bytes and `N` goes down by what the inner reader gave. -/
def LimitedReader.Read {ρ : Type} [Reader ρ] (l : LimitedReader ρ) (len : Nat) : ReadResult (LimitedReader ρ) :=
  if l.N ≤ 0 then ⟨[], some .EOF, l⟩
  else
    let len := if (len : Int) > l.N then l.N.toNat else len
    let r := Reader.Read l.R len
    ⟨r.data, r.err, ⟨r.next, l.N - (r.data.length : Int)⟩⟩

instance {ρ : Type} [Reader ρ] : Reader (LimitedReader ρ) := ⟨LimitedReader.Read⟩

/-- The writer `io.Discard`. -/
structure Discard where
  deriving DecidableEq, Repr

instance : Writer Discard := ⟨fun d p => ⟨(p.length : Int), none, d⟩⟩

/-- Result of `io.CopyBuffer`: bytes written, the error, and both ends afterwards. -/
structure CopyResult (ω ρ : Type) where
  written : Int
  err : Option Error
  dst : ω
  src : ρ

/-- The loop of `io.copyBuffer` with a buffer of `buf` bytes. The `WriterTo` and
`ReaderFrom` shortcuts of the Go library run this same loop with a buffer size
of their own. -/
def copyBufferLoop {ω ρ : Type} [Writer ω] [Reader ρ] : Nat → ω → ρ → Nat → Int → Option (CopyResult ω ρ)
  | 0, _, _, _, _ => none
  | fuel + 1, dst, src, buf, written =>
    let r := Reader.Read src buf
    let nr : Int := r.data.length
    if nr > 0 then
      let w := Writer.Write dst r.data
      let invalid := decide (w.n < 0 ∨ nr < w.n)
      let nw : Int := if invalid then 0 else w.n
      let ew : Option Error := if invalid then (if w.err = none then some .errInvalidWrite else w.err) else w.err
      let written := written + nw
      match ew with
      | some e => some ⟨written, some e, w.next, r.next⟩
      | none =>
        if nr ≠ nw then some ⟨written, some .ErrShortWrite, w.next, r.next⟩
        else
          match r.err with
          | some er => some ⟨written, if er = .EOF then none else some er, w.next, r.next⟩
          | none => copyBufferLoop fuel w.next r.next buf written
    else
      match r.err with
      | some er => some ⟨written, if er = .EOF then none else some er, dst, r.next⟩
      | none => copyBufferLoop fuel dst r.next buf written

/-- `io.CopyBuffer(dst, src, buf)` with `len(buf) = buf`. -/
def CopyBuffer {ω ρ : Type} [Writer ω] [Reader ρ] (fuel : Nat) (dst : ω) (src : ρ) (buf : Nat) : Option (CopyResult ω ρ) :=
  copyBufferLoop fuel dst src buf 0

end io

namespace bytes

/-- A growing byte buffer used as a writer: `Write` appends and never fails. -/
structure Buffer where
  buf : List Nat
  deriving DecidableEq, Repr

instance : io.Writer Buffer := ⟨fun b p => ⟨(p.length : Int), none, ⟨b.buf ++ p⟩⟩⟩

end bytes

/-! ## `log/slog` -/

namespace slog

/-- The attribute values the programs log. -/
inductive Value where
  | Int64 (v : Int)
  | Int (v : Int)
  | String (s : String)
  deriving DecidableEq, Repr

/-- One key-value pair of a log record (`slog.Attr`). -/
structure Attr where
  key : String
  value : Value
  deriving DecidableEq, Repr

/-- One record handed to the default logger by `slog.Info(msg, attrs...)`. -/
structure Record where
  msg : String
  attrs : List Attr
  deriving DecidableEq, Repr

/-- `slog.Info(msg, attrs...)`, as the record it emits. -/
def Info (msg : String) (attrs : List Attr) : Record := ⟨msg, attrs⟩

/-- `slog.Int64(key, v)`. -/
def Int64 (key : String) (v : Int) : Attr := ⟨key, .Int64 v⟩

/-- `slog.Int(key, v)`. -/
def Int (key : String) (v : Int) : Attr := ⟨key, .Int v⟩

/-- `slog.String(key, v)`. -/
def String (key : String) (v : String) : Attr := ⟨key, .String v⟩

end slog

/-! ## `net/http`, server side -/

namespace http

/-- `http.StatusOK`. -/
def StatusOK : Nat := 200

/-- `http.StatusNoContent`. -/
def StatusNoContent : Nat := 204

/-- `http.StatusBadRequest`. -/
def StatusBadRequest : Nat := 400

/-- The state behind an `http.ResponseWriter`: the header map the handler may
still change, what went out with the status line, the body bytes written so
far, and how many more body bytes the peer takes (`none`: any number). -/
structure ResponseWriter where
  header : List (String × String)
  wroteHeader : Bool
  status : Nat
  sentHeader : List (String × String)
  body : List Nat
  room : Option Nat
  deriving DecidableEq, Repr

/-- The response writer a handler is called with: nothing set, nothing sent. -/
def ResponseWriter.fresh (room : Option Nat) : ResponseWriter :=
  ⟨[], false, 0, [], [], room⟩

/-- `rw.Header().Set(key, value)`: replaces the values of `key`. -/
def ResponseWriter.HeaderSet (rw : ResponseWriter) (key value : String) : ResponseWriter :=
  { rw with header := (key, value) :: rw.header.filter (fun kv => kv.1 ≠ key) }

/-- `rw.WriteHeader(code)`: the first call fixes the status and sends the
header map as it is then; later calls change nothing. -/
def ResponseWriter.WriteHeader (rw : ResponseWriter) (code : Nat) : ResponseWriter :=
  if rw.wroteHeader then rw
  else { rw with wroteHeader := true, status := code, sentHeader := rw.header }

/-- `rw.Write(p)`: sends the header with status 200 when none was sent, then
appends `p` to the body, or as much of it as the peer takes, with an error. -/
def ResponseWriter.Write (rw : ResponseWriter) (p : List Nat) : io.WriteResult ResponseWriter :=
  let rw := if rw.wroteHeader then rw else rw.WriteHeader StatusOK
  match rw.room with
  | none => ⟨(p.length : Int), none, { rw with body := rw.body ++ p }⟩
  | some k =>
    if p.length ≤ k then ⟨(p.length : Int), none, { rw with body := rw.body ++ p, room := some (k - p.length) }⟩
    else ⟨(k : Int), some (.transport 0), { rw with body := rw.body ++ p.take k, room := some 0 }⟩

instance : io.Writer ResponseWriter := ⟨ResponseWriter.Write⟩

/-- The request body as the server sees it: the segments of data still to
arrive, the error `Read` returns once they are used up (`io.EOF` for a complete
body, anything else for a broken one), the number of bytes handed to the reader
so far, and whether `Close` was called. -/
structure Body where
  chunks : List (List Nat)
  final : io.Error
  delivered : Nat
  closed : Bool
  deriving DecidableEq, Repr

/-- Number of bytes the body still holds. -/
def Body.remaining (b : Body) : Nat := (b.chunks.map List.length).sum

/-- `req.Body.Read(p)`: gives at most `len(p)` bytes of the first segment
without error; with no segment left it gives no bytes and the final error. -/
def Body.Read (b : Body) (len : Nat) : io.ReadResult Body :=
  match b.chunks with
  | [] => ⟨[], some b.final, b⟩
  | c :: rest =>
    let data := c.take len
    let left := c.drop len
    ⟨data, none, { b with chunks := if left = [] then rest else left :: rest,
                          delivered := b.delivered + data.length }⟩

instance : io.Reader Body := ⟨Body.Read⟩

/-- `req.Body.Close()`. What the transport does with unread bytes once the body
is closed happens outside the handler and is not part of this state. -/
def Body.Close (b : Body) : Body := { b with closed := true }

/-- The parts of `*http.Request` the handlers use: `PathValue("size")`, `Proto`
and `Body`. -/
structure Request where
  size : String
  Proto : String
  Body : Body
  deriving DecidableEq, Repr

end http

/-! ## Packages of the repository used by the handlers -/

namespace infinite

/-- Modelled from the spec: `internal/infinite.Reader`, the Byte Source, whose
source is missing. "Produces a lazy, infinite sequence of bytes; deterministic
content (fixed fill pattern is acceptable)"; "No error conditions; it never
terminates on its own." -/
structure Reader where
  deriving DecidableEq, Repr

/-- Modelled from the spec: the fill byte of the missing `infinite.Reader`. -/
def fill : Nat := 0

/-- Modelled from the spec: `Read` of the missing `infinite.Reader` fills the
whole buffer and returns no error. -/
def Reader.Read (r : Reader) (len : Nat) : io.ReadResult Reader :=
  ⟨List.replicate len fill, none, r⟩

instance : io.Reader Reader := ⟨Reader.Read⟩

end infinite

namespace slogging

/-- Modelled from the spec: the value `internal/slogging.NewReadCloser` returns,
the Measurement Decorator, whose source is missing. It "wraps an underlying
stream" and "increments a running byte counter". -/
structure ReadCloser (ρ : Type) where
  inner : ρ
  count : Nat

/-- Modelled from the spec: the missing `slogging.NewReadCloser`. -/
def NewReadCloser {ρ : Type} (r : ρ) : ReadCloser ρ := ⟨r, 0⟩

/-- Modelled from the spec: `Read` of the missing decorator. It "forwards bytes
through after counting, preserving the exact byte sequence and total length",
and "propagates the failure unchanged". -/
def ReadCloser.Read {ρ : Type} [io.Reader ρ] (w : ReadCloser ρ) (len : Nat) : io.ReadResult (ReadCloser ρ) :=
  let r := io.Reader.Read w.inner len
  ⟨r.data, r.err, ⟨r.next, w.count + r.data.length⟩⟩

instance {ρ : Type} [io.Reader ρ] : io.Reader (ReadCloser ρ) := ⟨ReadCloser.Read⟩

/-- Modelled from the spec: `Close` of the missing decorator closes the stream
it wraps. -/
def ReadCloser.Close (w : ReadCloser http.Body) : ReadCloser http.Body :=
  { w with inner := w.inner.Close }

end slogging

/-! ## Library pieces used by the measure clients -/

namespace net

/-- `net.JoinHostPort(host, port)`: a host with a colon is put in brackets. -/
def JoinHostPort (host port : String) : String :=
  if host.toList.contains ':' then "[" ++ host ++ "]:" ++ port
  else host ++ ":" ++ port

end net

namespace url

/-- The fields of `url.URL` the clients fill in; the others are zero, and
`URL.String` below is `(*url.URL).String()` on such a value. -/
structure URL where
  Scheme : String
  Host : String
  Path : String
  deriving DecidableEq, Repr

/-- The two escaping modes `String` uses on these fields. -/
inductive encoding where
  | encodePath
  | encodeHost
  deriving DecidableEq, Repr

/-- `shouldEscape(c, mode)` of `net/url` on an ASCII byte, for the two modes
above: letters and digits never; in a host the sub-delimiters, the colon, the
brackets, the angle brackets and the double quote never; the marks `- _ . ~`
never; of the reserved characters a path escapes only `?` and a host escapes
what is left (`/ ? @`); everything else always. -/
def shouldEscape (c : Char) (mode : encoding) : Bool :=
  if ('a' ≤ c ∧ c ≤ 'z') ∨ ('A' ≤ c ∧ c ≤ 'Z') ∨ ('0' ≤ c ∧ c ≤ '9') then false
  else if mode = .encodeHost ∧
      c ∈ ['!', '$', '&', Char.ofNat 39, '(', ')', '*', '+', ',', ';', '=', ':', '[', ']', '<', '>',
        Char.ofNat 34] then false
  else if c ∈ ['-', '_', '.', '~'] then false
  else if c ∈ ['$', '&', '+', ',', '/', ':', ';', '=', '?', '@'] then
    (match mode with
      | .encodePath => decide (c = '?')
      | .encodeHost => true)
  else true

/-- The table `upperhex` of `net/url`. -/
def upperhex (k : Nat) : Char := "0123456789ABCDEF".toList.getD (k % 16) '0'

/-- The three characters `%XY` that `escape` writes for the byte `b`. -/
def percent (b : Nat) : List Char := ['%', upperhex (b / 16), upperhex (b % 16)]

/-- What `escape` writes for one character of the string: an ASCII byte is
kept or percent-escaped as `shouldEscape` says; each byte of the UTF-8 encoding
of any other character is percent-escaped. -/
def escapeChar (c : Char) (mode : encoding) : List Char :=
  if c.toNat < 128 then (if shouldEscape c mode then percent c.toNat else [c])
  else (String.utf8EncodeChar c).flatMap (fun b => percent b.toNat)

/-- `escape(s, mode)` of `net/url`, for the two modes above. -/
def escape (s : List Char) (mode : encoding) : List Char :=
  s.flatMap (fun c => escapeChar c mode)

/-- `(*url.URL).EscapedPath()` with no `RawPath` set. -/
def URL.EscapedPath (u : URL) : String :=
  if u.Path = "*" then "*" else String.mk (escape u.Path.toList .encodePath)

/-- `(*url.URL).String()`: the scheme and a colon, `//` and the escaped host,
the escaped path (behind a `/` when it has none and there is a host, behind `./`
when nothing precedes it and its first segment has a colon). -/
def URL.String (u : URL) : String :=
  let scheme := if u.Scheme ≠ "" then u.Scheme ++ ":" else ""
  let authority :=
    if u.Scheme ≠ "" ∨ u.Host ≠ "" then
      (if u.Host ≠ "" ∨ u.Path ≠ "" then "//" else "") ++
        (if u.Host ≠ "" then String.mk (escape u.Host.toList .encodeHost) else "")
    else ""
  let path := u.EscapedPath
  let slash := if path ≠ "" ∧ path.toList.head? ≠ some '/' ∧ u.Host ≠ "" then "/" else ""
  let dot :=
    if scheme ++ authority ++ slash = "" ∧ (path.toList.takeWhile (fun c => c ≠ '/')).contains ':'
    then "./" else ""
  scheme ++ authority ++ slash ++ dot ++ path

/-- The loop of `getScheme` of `net/url`; `acc` is the text before the byte at
hand. It gives the scheme and what follows the colon, and `none` when there is
no scheme or the scheme is missing before the colon. -/
def getSchemeLoop : List Char → List Char → Option (List Char × List Char)
  | [], _ => none
  | c :: cs, acc =>
    if ('a' ≤ c ∧ c ≤ 'z') ∨ ('A' ≤ c ∧ c ≤ 'Z') then getSchemeLoop cs (acc ++ [c])
    else if ('0' ≤ c ∧ c ≤ '9') ∨ c = '+' ∨ c = '-' ∨ c = '.' then
      (if acc = [] then none else getSchemeLoop cs (acc ++ [c]))
    else if c = ':' then (if acc = [] then none else some (acc, cs))
    else none

/-- The request target `req.URL.RequestURI()` that the transport writes for a
request made from the URL string `rawURL`, when `http.NewRequestWithContext`
accepted that string (whether it did is an input of the clients). Covered are
strings `scheme://authority/path` without `#` and `?` whose path needs no
escaping: `url.Parse` then takes the authority up to the first `/` and the rest
as the path, and the target is that path, or `/` for an empty one. Any other
string gives `none`. -/
def requestURI (rawURL : String) : Option String :=
  match getSchemeLoop rawURL.toList [] with
  | some (_, '/' :: '/' :: rest) =>
    let path := rest.dropWhile (fun c => c ≠ '/')
    if rest.all (fun c => c ≠ '#' ∧ c ≠ '?') ∧
        path.all (fun c => c.toNat < 128 ∧ c ≠ '%' ∧ shouldEscape c .encodePath = false) then
      some (if path = [] then "/" else String.mk path)
    else none
  | _ => none

end url

namespace tls

/-- The fields of `tls.Config` the client fills in; a certificate is a number. -/
structure Config where
  RootCAs : List Nat
  NextProtos : List String
  deriving DecidableEq, Repr

end tls

namespace http

/-- The fields of `http.Transport` the client fills in. -/
structure Transport where
  TLSClientConfig : tls.Config
  ForceAttemptHTTP2 : Bool
  deriving DecidableEq, Repr

/-- The request a client builds: `Body` is `none` for `http.NoBody`, else the
limited Byte Source. -/
structure ClientRequest where
  Method : String
  URL : String
  Body : Option (io.LimitedReader infinite.Reader)
  ContentLength : Int
  deriving DecidableEq, Repr

/-- The parts of `*http.Response` the clients use; `alpn` is
`resp.TLS.NegotiatedProtocol`. -/
structure Response where
  StatusCode : Int
  Proto : String
  alpn : String
  Body : Body
  deriving DecidableEq, Repr

/-- The value `req.PathValue("size")` for a request with the target `target`
that the mux routes to a pattern `/{size}`: the one segment behind the `/`. The
mux routes a target there only when that segment is not empty and the path is
clean (the segment is neither `.` nor `..`); covered are segments that need no
escaping, any other target gives `none`. -/
def PathValue (target : String) : Option String :=
  match target.toList with
  | '/' :: seg =>
    if seg ≠ [] ∧ seg ≠ ['.'] ∧ seg ≠ ['.', '.'] ∧
        seg.all (fun c => c.toNat < 128 ∧ c ≠ '/' ∧ c ≠ '#' ∧ c ≠ '%' ∧
          url.shouldEscape c .encodePath = false) then
      some (String.mk seg)
    else none
  | _ => none

/-- What `net/http` hands the handler of `/{size}` for a request a client
sent, when the connection carries the request whole: the size segment of the
request target, the protocol of the connection, and as body the bytes the
client's body gives when the transport reads it to its end (with the 32 KiB
buffer of `io.Copy`), as one segment followed by `io.EOF`. The transport gives
up on a body that fails or whose length is not the declared Content-Length;
then, and on a target outside the patterns, there is no such request. -/
def serverRequest (fuel : Nat) (r : ClientRequest) (proto : String) : Option Request :=
  match url.requestURI r.URL with
  | none => none
  | some target =>
    match PathValue target with
    | none => none
    | some size =>
      match r.Body with
      | none => some ⟨size, proto, ⟨[], .EOF, 0, false⟩⟩
      | some src =>
        match io.CopyBuffer fuel (bytes.Buffer.mk []) src (32 * 1024) with
        | none => none
        | some c =>
          if c.err = none ∧ c.written = r.ContentLength then
            some ⟨size, proto, ⟨[c.dst.buf], .EOF, 0, false⟩⟩
          else none

end http

namespace http2

/-- `http2.ConfigureTransports(t1)`: when registering the protocol fails the
transport is left as it was; otherwise `"h2"` is put in front of the ALPN list and
`"http/1.1"` behind it, each unless present. The flag tells which of the two
happens. -/
def ConfigureTransports (t1 : http.Transport) (fails : Bool) : http.Transport :=
  if fails then t1
  else
    let p1 := if t1.TLSClientConfig.NextProtos.contains "h2" then t1.TLSClientConfig.NextProtos
      else "h2" :: t1.TLSClientConfig.NextProtos
    let p2 := if p1.contains "http/1.1" then p1 else p1 ++ ["http/1.1"]
    { t1 with TLSClientConfig := { t1.TLSClientConfig with NextProtos := p2 } }

end http2

/-! ## The handlers -/

/-- What a handler leaves behind: the response, the request body, and the
records it logged, oldest first. -/
structure Served where
  rw : http.ResponseWriter
  body : http.Body
  log : List slog.Record
  deriving DecidableEq, Repr

namespace gohttp1

/-- `serveHandleGet` of `cmd/gohttp1/serve.go`. -/
def serveHandleGet (fuel : Nat) (rw : http.ResponseWriter) (req : http.Request) : Option Served :=
  match strconv.ParseInt req.size with
  | .error _ => some ⟨rw.WriteHeader http.StatusBadRequest, req.Body, []⟩
  | .ok count =>
    if count < 0 then some ⟨rw.WriteHeader http.StatusBadRequest, req.Body, []⟩
    else
      let log := [slog.Info "GET" [slog.Int64 "count" count]]
      let bodyReader := io.LimitReader infinite.Reader.mk count
      let rw := rw.HeaderSet "Content-Length" (strconv.FormatInt count)
      let rw := rw.WriteHeader http.StatusOK
      match io.CopyBuffer fuel rw bodyReader (1 <<< 20) with
      | none => none
      | some c => some ⟨c.dst, req.Body, log⟩

/-- `serveHandlePut` of `cmd/gohttp1/serve.go`. -/
def serveHandlePut (fuel : Nat) (rw : http.ResponseWriter) (req : http.Request) : Option Served :=
  match strconv.ParseInt req.size with
  | .error _ => some ⟨rw.WriteHeader http.StatusBadRequest, req.Body, []⟩
  | .ok expectCount =>
    if expectCount < 0 then some ⟨rw.WriteHeader http.StatusBadRequest, req.Body, []⟩
    else
      let log := [slog.Info "PUT" [slog.Int64 "expectCount" expectCount]]
      let bodyWrapper := slogging.NewReadCloser req.Body
      let bodyReader := io.LimitReader bodyWrapper expectCount
      match io.CopyBuffer fuel io.Discard.mk bodyReader (1 <<< 20) with
      | none => none
      | some c =>
        let rw := rw.WriteHeader http.StatusNoContent
        let bodyWrapper := c.src.R.Close
        some ⟨rw, bodyWrapper.inner, log⟩

end gohttp1

namespace gohttp2c

/-- `serveHandleGet` of `cmd/gohttp2c/serve.go`. -/
def serveHandleGet (fuel : Nat) (rw : http.ResponseWriter) (req : http.Request) : Option Served :=
  match strconv.ParseInt req.size with
  | .error _ => some ⟨rw.WriteHeader http.StatusBadRequest, req.Body, []⟩
  | .ok count =>
    if count < 0 then some ⟨rw.WriteHeader http.StatusBadRequest, req.Body, []⟩
    else
      let log := [slog.Info "GET" [slog.Int64 "count" count, slog.String "proto" req.Proto]]
      let bodyReader := io.LimitReader infinite.Reader.mk count
      let rw := rw.HeaderSet "Content-Length" (strconv.FormatInt count)
      let rw := rw.WriteHeader http.StatusOK
      match io.CopyBuffer fuel rw bodyReader (1 <<< 20) with
      | none => none
      | some c => some ⟨c.dst, req.Body, log⟩

/-- `serveHandlePut` of `cmd/gohttp2c/serve.go`. -/
def serveHandlePut (fuel : Nat) (rw : http.ResponseWriter) (req : http.Request) : Option Served :=
  match strconv.ParseInt req.size with
  | .error _ => some ⟨rw.WriteHeader http.StatusBadRequest, req.Body, []⟩
  | .ok expectCount =>
    if expectCount < 0 then some ⟨rw.WriteHeader http.StatusBadRequest, req.Body, []⟩
    else
      let log := [slog.Info "PUT" [slog.Int64 "expectCount" expectCount, slog.String "proto" req.Proto]]
      let bodyWrapper := slogging.NewReadCloser req.Body
      let bodyReader := io.LimitReader bodyWrapper expectCount
      match io.CopyBuffer fuel io.Discard.mk bodyReader (1 <<< 20) with
      | none => none
      | some c =>
        let rw := rw.WriteHeader http.StatusNoContent
        let bodyWrapper := c.src.R.Close
        some ⟨rw, bodyWrapper.inner, log⟩

end gohttp2c


/-! ## The measure clients -/

/-- The assertions of the clients, by what they check: the method, that the
cert flag is not empty, that the cert file gave a certificate, and that an
upload has at least one byte. -/
inductive Assertion where
  | method
  | certFlag
  | certPool
  | bytes
  deriving DecidableEq, Repr

/-- How a run of a client ends: `measureMain` returns nil, `runtimex.Assert`
fails, or `runtimex.LogFatalOnError` stops the process. -/
inductive Exit where
  | returned
  | assertFailed (a : Assertion)
  | fatal
  deriving DecidableEq, Repr

/-- What a client does that the outside can see, in order. -/
inductive Effect where
  | log (r : slog.Record)
  | readFile (path : String)
  | client (t : http.Transport)
  | newRequest (method url : String) (body : Option (io.LimitedReader infinite.Reader))
  | send (req : http.ClientRequest)
  | drained (n : Int)
  | closed
  | dial (url : String) (flag : Bool)
  | receiver (label : String)
  | sender (label : String)
  deriving DecidableEq, Repr

/-- One run of a client: its effects, oldest first, and how it ended; no end
when the fuel ran out while the response body was drained. -/
structure Run where
  trace : List Effect
  exit : Option Exit
  deriving DecidableEq, Repr

namespace gohttp1

/-- The flags of `gohttp1 measure`, after parsing. -/
structure Flags where
  addressFlag : String
  bytesFlag : Int
  methodFlag : String
  portFlag : String
  deriving DecidableEq, Repr

/-- What the outside gives the client: whether `http.NewRequestWithContext`
returns an error, and the result of `http.DefaultClient.Do`. -/
structure Env where
  newRequestFails : Bool
  doResult : Except String http.Response

/-- `measureMain` of `cmd/gohttp1/measure.go`, after the flags are parsed. A
failed drain stops the process before the deferred `Close` runs. -/
def measureMain (fuel : Nat) (f : Flags) (env : Env) : Run :=
  if ¬ (f.methodFlag = "GET" ∨ f.methodFlag = "PUT") then ⟨[], some (.assertFailed .method)⟩
  else
    let URL : url.URL :=
      ⟨"http", net.JoinHostPort f.addressFlag f.portFlag, "/" ++ strconv.FormatInt f.bytesFlag⟩
    if f.methodFlag = "PUT" ∧ ¬ (f.bytesFlag ≥ 1) then ⟨[], some (.assertFailed .bytes)⟩
    else
      let body : Option (io.LimitedReader infinite.Reader) :=
        if f.methodFlag = "PUT" then some (io.LimitReader infinite.Reader.mk f.bytesFlag) else none
      let trace := [Effect.newRequest f.methodFlag URL.String body]
      if env.newRequestFails then ⟨trace, some .fatal⟩
      else
        let req : http.ClientRequest :=
          ⟨f.methodFlag, URL.String, body, if f.methodFlag = "PUT" then f.bytesFlag else 0⟩
        let trace := trace ++
          [.log (slog.Info "request" [slog.String "method" f.methodFlag, slog.String "URL" URL.String])]
        match env.doResult with
        | .error _ => ⟨trace ++ [.send req], some .fatal⟩
        | .ok resp =>
          let bodyWrapper := slogging.NewReadCloser resp.Body
          let trace := trace ++
            [.send req, .log (slog.Info "response" [slog.Int "status" resp.StatusCode])]
          match io.CopyBuffer fuel io.Discard.mk bodyWrapper (1 <<< 20) with
          | none => ⟨trace, none⟩
          | some c =>
            match c.err with
            | some _ => ⟨trace ++ [.drained c.written], some .fatal⟩
            | none => ⟨trace ++ [.drained c.written, .closed], some .returned⟩

end gohttp1

namespace gohttp2

/-- The flags of `gohttp2 measure`, after parsing. -/
structure Flags where
  addressFlag : String
  bytesFlag : Int
  certFlag : String
  http2Flag : Bool
  methodFlag : String
  portFlag : String
  deriving DecidableEq, Repr

/-- What the outside gives the client: the certificates `os.ReadFile` and
`AppendCertsFromPEM` get out of the cert file (`none` when the file cannot be
read, no certificate when none parses), whether `http2.ConfigureTransports`
fails, whether `http.NewRequestWithContext` returns an error, and the result of
`client.Do`. -/
structure Env where
  certFile : Option (List Nat)
  configureFails : Bool
  newRequestFails : Bool
  doResult : Except String http.Response

/-- `measureMain` of `cmd/gohttp2/measure.go`, after the flags are parsed. The
two tuning assignments on the HTTP/2 transport touch no field kept here. A
failed drain stops the process before the deferred `Close` runs. -/
def measureMain (fuel : Nat) (f : Flags) (env : Env) : Run :=
  if ¬ (f.methodFlag = "GET" ∨ f.methodFlag = "PUT") then ⟨[], some (.assertFailed .method)⟩
  else if ¬ (f.certFlag ≠ "") then ⟨[], some (.assertFailed .certFlag)⟩
  else
    match env.certFile with
    | none => ⟨[.readFile f.certFlag], some .fatal⟩
    | some caCert =>
      let caPool : List Nat := [] ++ caCert
      if caCert = [] then ⟨[.readFile f.certFlag], some (.assertFailed .certPool)⟩
      else
        let tlsConfig : tls.Config := ⟨caPool, []⟩
        let tlsConfig := if ¬ f.http2Flag then { tlsConfig with NextProtos := ["http/1.1"] } else tlsConfig
        let transport : http.Transport := ⟨tlsConfig, f.http2Flag⟩
        let transport := if f.http2Flag then http2.ConfigureTransports transport env.configureFails
          else transport
        let URL : url.URL :=
          ⟨"https", net.JoinHostPort f.addressFlag f.portFlag, "/" ++ strconv.FormatInt f.bytesFlag⟩
        let trace := [Effect.readFile f.certFlag, .client transport]
        if f.methodFlag = "PUT" ∧ ¬ (f.bytesFlag ≥ 1) then ⟨trace, some (.assertFailed .bytes)⟩
        else
          let body : Option (io.LimitedReader infinite.Reader) :=
            if f.methodFlag = "PUT" then some (io.LimitReader infinite.Reader.mk f.bytesFlag) else none
          let trace := trace ++ [.newRequest f.methodFlag URL.String body]
          if env.newRequestFails then ⟨trace, some .fatal⟩
          else
            let req : http.ClientRequest :=
              ⟨f.methodFlag, URL.String, body, if f.methodFlag = "PUT" then f.bytesFlag else 0⟩
            let trace := trace ++
              [.log (slog.Info "request" [slog.String "method" f.methodFlag, slog.String "URL" URL.String])]
            match env.doResult with
            | .error _ => ⟨trace ++ [.send req], some .fatal⟩
            | .ok resp =>
              let bodyWrapper := slogging.NewReadCloser resp.Body
              let trace := trace ++
                [.send req, .log (slog.Info "response"
                  [slog.Int "status" resp.StatusCode, slog.String "proto" resp.Proto,
                    slog.String "alpn" resp.alpn])]
              match io.CopyBuffer fuel io.Discard.mk bodyWrapper (1 <<< 20) with
              | none => ⟨trace, none⟩
              | some c =>
                match c.err with
                | some _ => ⟨trace ++ [.drained c.written], some .fatal⟩
                | none => ⟨trace ++ [.drained c.written, .closed], some .returned⟩

end gohttp2

namespace ndt7

/-- The flags of `ndt7 measure`, after parsing. -/
structure Flags where
  addressFlag : String
  methodFlag : String
  portFlag : String
  deriving DecidableEq, Repr

/-- `measureMain` of `cmd/ndt7/measure.go`, after the flags are parsed. `dial`,
`receiver` and `sender` live in files of the package whose source is missing:
the calls are recorded as effects, and `dialFails` tells whether `dial` returns
an error. -/
def measureMain (f : Flags) (dialFails : Bool) : Run :=
  if ¬ (f.methodFlag = "GET" ∨ f.methodFlag = "PUT") then ⟨[], some (.assertFailed .method)⟩
  else
    let host := net.JoinHostPort f.addressFlag f.portFlag
    if f.methodFlag = "GET" then
      let wsURL := "wss://" ++ host ++ "/ndt/v7/download"
      let trace := [Effect.log (slog.Info "download" [slog.String "url" wsURL]), .dial wsURL true]
      if dialFails then ⟨trace, some .fatal⟩
      else ⟨trace ++ [.receiver "download"], some .returned⟩
    else
      let wsURL := "wss://" ++ host ++ "/ndt/v7/upload"
      let trace := [Effect.log (slog.Info "upload" [slog.String "url" wsURL]), .dial wsURL true]
      if dialFails then ⟨trace, some .fatal⟩
      else ⟨trace ++ [.sender "upload"], some .returned⟩

end ndt7

/-! ## Auxiliary definitions of the proofs -/

/-- Number of bytes out of `n` that a peer with `room` takes. -/
def http.taken (room : Option Nat) (n : Nat) : Nat :=
  match room with
  | none => n
  | some k => min n k

/-- What `Read` leaves of a body whose first segment is `c`, for a buffer of `m` bytes. -/
def bodyAfterRead (b : http.Body) (c : List Nat) (rest : List (List Nat)) (m : Nat) : http.Body :=
  { b with chunks := if c.drop m = [] then rest else c.drop m :: rest,
           delivered := b.delivered + (c.take m).length }

/-- Rounds of the copy loops that are enough for both handlers on `req`. -/
def serveFuel (req : http.Request) : Nat :=
  match strconv.ParseInt req.size with
  | .error _ => 0
  | .ok count => max (count.toNat / 2 ^ 20 + 2) (req.Body.chunks.length + req.Body.remaining + 1)

/-- A decimal digit, as a character. -/
def isDecimal (c : Char) : Prop := c ∈ (List.range 10).map Nat.digitChar

/-- The log record of the HTTP/1.1 handler with the `proto` attribute of the
cleartext HTTP/2 handler added at the end. -/
def addProto (proto : String) (r : slog.Record) : slog.Record :=
  { r with attrs := r.attrs ++ [slog.String "proto" proto] }

/-! ## The size parser on sample inputs -/

theorem ParseInt_samples :
    strconv.ParseInt "1048576" = .ok 1048576 ∧ strconv.ParseInt "+05" = .ok 5 ∧
    strconv.ParseInt "-5" = .ok (-5) ∧ strconv.ParseInt "" = .error .ErrSyntax ∧
    strconv.ParseInt "1_000" = .error .ErrSyntax ∧ strconv.ParseInt "0x10" = .error .ErrSyntax ∧
    strconv.ParseInt "9223372036854775807" = .ok 9223372036854775807 ∧
    strconv.ParseInt "9223372036854775808" = .error .ErrRange ∧
    strconv.ParseInt "-9223372036854775808" = .ok (-9223372036854775808) ∧
    strconv.ParseInt "99999999999999999999999x" = .error .ErrRange := by
  decide

theorem FormatInt_samples :
    strconv.FormatInt 1048576 = "1048576" ∧ strconv.FormatInt 0 = "0" ∧
    strconv.FormatInt (-12) = "-12" := by
  decide

/-! ## Lemmas on the copy loop -/

namespace io

/-- One round of the loop in which `Read` gave data without error and `Write`
took all of it. -/
theorem copyBufferLoop_data {ω ρ : Type} [Writer ω] [Reader ρ] (fuel : Nat) (dst : ω) (src : ρ)
    (buf : Nat) (written : Int)
    (hd : 0 < (Reader.Read src buf).data.length)
    (hre : (Reader.Read src buf).err = none)
    (hn : (Writer.Write dst (Reader.Read src buf).data).n = ((Reader.Read src buf).data.length : Int))
    (hwe : (Writer.Write dst (Reader.Read src buf).data).err = none) :
    copyBufferLoop (fuel + 1) dst src buf written =
      copyBufferLoop fuel (Writer.Write dst (Reader.Read src buf).data).next (Reader.Read src buf).next buf
        (written + ((Reader.Read src buf).data.length : Int)) := by
  have hpos : (0 : Int) < ((Reader.Read src buf).data.length : Int) := by exact_mod_cast hd
  have hneg : ¬ (((Reader.Read src buf).data.length : Int) < 0) := by omega
  simp only [copyBufferLoop, gt_iff_lt, hpos, if_true, hn, hwe, hre]
  simp [hneg]

/-- One round of the loop in which `Read` gave neither data nor an error. -/
theorem copyBufferLoop_idle {ω ρ : Type} [Writer ω] [Reader ρ] (fuel : Nat) (dst : ω) (src : ρ)
    (buf : Nat) (written : Int)
    (hd : (Reader.Read src buf).data = [])
    (hre : (Reader.Read src buf).err = none) :
    copyBufferLoop (fuel + 1) dst src buf written =
      copyBufferLoop fuel dst (Reader.Read src buf).next buf written := by
  simp [copyBufferLoop, hd, hre]

/-- The round in which `Read` gave no data and an error: the loop ends, and
`io.EOF` is not reported. -/
theorem copyBufferLoop_end {ω ρ : Type} [Writer ω] [Reader ρ] (fuel : Nat) (dst : ω) (src : ρ)
    (buf : Nat) (written : Int) (e : Error)
    (hd : (Reader.Read src buf).data = [])
    (hre : (Reader.Read src buf).err = some e) :
    copyBufferLoop (fuel + 1) dst src buf written =
      some ⟨written, if e = .EOF then none else some e, dst, (Reader.Read src buf).next⟩ := by
  simp [copyBufferLoop, hd, hre]

/-- The round in which `Write` returned an error after taking `k` bytes, not
more than it was given: the loop ends with that error. -/
theorem copyBufferLoop_writeError {ω ρ : Type} [Writer ω] [Reader ρ] (fuel : Nat) (dst : ω) (src : ρ)
    (buf : Nat) (written : Int) (e : Error)
    (hd : 0 < (Reader.Read src buf).data.length)
    (h0 : 0 ≤ (Writer.Write dst (Reader.Read src buf).data).n)
    (hn : (Writer.Write dst (Reader.Read src buf).data).n ≤ ((Reader.Read src buf).data.length : Int))
    (hwe : (Writer.Write dst (Reader.Read src buf).data).err = some e) :
    copyBufferLoop (fuel + 1) dst src buf written =
      some ⟨written + (Writer.Write dst (Reader.Read src buf).data).n, some e,
        (Writer.Write dst (Reader.Read src buf).data).next, (Reader.Read src buf).next⟩ := by
  have hpos : (0 : Int) < ((Reader.Read src buf).data.length : Int) := by exact_mod_cast hd
  have hinv : ¬ ((Writer.Write dst (Reader.Read src buf).data).n < 0 ∨
      ((Reader.Read src buf).data.length : Int) < (Writer.Write dst (Reader.Read src buf).data).n) := by
    omega
  simp only [copyBufferLoop, gt_iff_lt, hpos, if_true, hwe, hinv, decide_False]
  simp

end io

/-! ## The download loop: a limited Byte Source copied to the response -/

theorem taken_step (room : Option Nat) (m n : Nat) (hfit : ∀ k, room = some k → m ≤ k) (hmn : m ≤ n) :
    m + http.taken (room.map (fun k => k - m)) (n - m) = http.taken room n := by
  cases room with
  | none => simp [http.taken]; omega
  | some k =>
    have := hfit k rfl
    simp only [http.taken, Option.map_some']
    omega

theorem infinite_read (r : infinite.Reader) (len : Nat) :
    io.Reader.Read r len = ⟨List.replicate len infinite.fill, none, r⟩ := rfl

theorem limitedInfinite_read_zero (buf : Nat) :
    io.Reader.Read (io.LimitReader infinite.Reader.mk (0 : Int)) buf =
      ⟨[], some .EOF, io.LimitReader infinite.Reader.mk (0 : Int)⟩ := by
  show io.LimitedReader.Read _ _ = _
  simp [io.LimitedReader.Read, io.LimitReader]

theorem limitedInfinite_read_pos (n buf : Nat) (hn : 0 < n) :
    io.Reader.Read (io.LimitReader infinite.Reader.mk (n : Int)) buf =
      ⟨List.replicate (min buf n) infinite.fill, none,
        io.LimitReader infinite.Reader.mk ((n - min buf n : Nat) : Int)⟩ := by
  show io.LimitedReader.Read _ _ = _
  have h1 : ¬ ((n : Int) ≤ 0) := by omega
  simp only [io.LimitedReader.Read, io.LimitReader, h1, if_false, infinite_read,
    List.length_replicate]
  by_cases hb : (buf : Int) > (n : Int)
  · have : min buf n = n := by omega
    simp [hb, this]
  · have : min buf n = buf := by omega
    simp only [hb, if_false, this]
    congr 2
    omega

theorem responseWriter_write_fits (rw : http.ResponseWriter) (p : List Nat)
    (hw : rw.wroteHeader = true) (hroom : ∀ k, rw.room = some k → p.length ≤ k) :
    io.Writer.Write rw p =
      ⟨(p.length : Int), none,
        { rw with body := rw.body ++ p, room := rw.room.map (fun k => k - p.length) }⟩ := by
  show http.ResponseWriter.Write rw p = _
  unfold http.ResponseWriter.Write
  simp only [hw, if_true]
  cases hr : rw.room with
  | none => simp
  | some k => simp [hroom k hr]

theorem responseWriter_write_short (rw : http.ResponseWriter) (p : List Nat) (k : Nat)
    (hw : rw.wroteHeader = true) (hr : rw.room = some k) (hk : k < p.length) :
    io.Writer.Write rw p =
      ⟨(k : Int), some (.transport 0), { rw with body := rw.body ++ p.take k, room := some 0 }⟩ := by
  show http.ResponseWriter.Write rw p = _
  unfold http.ResponseWriter.Write
  have : ¬ (p.length ≤ k) := by omega
  simp [hw, hr, this]

/-- The download loop ends within `fuel` rounds when `n + buf ≤ fuel * buf`, and
the response then holds as many fill bytes as the peer took out of `n`; status
and headers are untouched. -/
theorem getLoop_result (buf : Nat) (hbuf : 0 < buf) :
    ∀ (fuel n : Nat) (rw : http.ResponseWriter) (written : Int),
      rw.wroteHeader = true → n + buf ≤ fuel * buf →
      ∃ c, io.copyBufferLoop fuel rw (io.LimitReader infinite.Reader.mk (n : Int)) buf written = some c ∧
        c.dst.body = rw.body ++ List.replicate (http.taken rw.room n) infinite.fill ∧
        c.dst.status = rw.status ∧ c.dst.sentHeader = rw.sentHeader ∧
        c.dst.header = rw.header ∧ c.dst.wroteHeader = true := by
  intro fuel
  induction fuel with
  | zero => intro n rw written _ h; simp at h; omega
  | succ fuel ih =>
    intro n rw written hw hfuel
    rcases Nat.eq_zero_or_pos n with hn | hn
    · subst hn
      refine ⟨_, io.copyBufferLoop_end fuel rw _ buf written .EOF ?_ ?_, ?_⟩
      · simp [limitedInfinite_read_zero]
      · simp [limitedInfinite_read_zero]
      · cases hr : rw.room <;> simp [http.taken, hw]
    · have hread := limitedInfinite_read_pos n buf hn
      have hm : 0 < min buf n := by omega
      by_cases hfit : ∀ k, rw.room = some k → min buf n ≤ k
      · have hwrite := responseWriter_write_fits rw (List.replicate (min buf n) infinite.fill) hw
          (by simpa using hfit)
        have hstep := io.copyBufferLoop_data fuel rw (io.LimitReader infinite.Reader.mk (n : Int)) buf written
          (by simp [hread, hm]) (by simp [hread]) (by simp [hread, hwrite]) (by simp [hread, hwrite])
        have hfuel2 : (n - min buf n) + buf ≤ fuel * buf := by
          rw [Nat.succ_mul] at hfuel
          rcases Nat.eq_zero_or_pos fuel with hf | hf
          · subst hf; simp at hfuel; omega
          · have : buf ≤ fuel * buf := Nat.le_mul_of_pos_left buf hf
            omega
        rw [hstep]
        simp only [hread, hwrite]
        obtain ⟨c, hc, hbody, hst, hsh, hh, hwh⟩ := ih (n - min buf n)
          { rw with body := rw.body ++ List.replicate (min buf n) infinite.fill,
                    room := rw.room.map (fun k => k - (List.replicate (min buf n) infinite.fill).length) }
          (written + ((List.replicate (min buf n) infinite.fill).length : Int)) hw hfuel2
        refine ⟨c, hc, ?_, hst, hsh, hh, hwh⟩
        rw [hbody]
        simp only [List.length_replicate, List.append_assoc, ← List.replicate_add]
        rw [taken_step rw.room (min buf n) n hfit (by omega)]
      · push_neg at hfit
        obtain ⟨k, hr, hk⟩ := hfit
        have hwrite := responseWriter_write_short rw (List.replicate (min buf n) infinite.fill) k hw hr
          (by simpa using hk)
        have hend := io.copyBufferLoop_writeError fuel rw (io.LimitReader infinite.Reader.mk (n : Int)) buf
          written (.transport 0)
          (by simp [hread, hm]) (by simp [hread, hwrite])
          (by simp only [hread, hwrite, List.length_replicate]; omega)
          (by simp [hread, hwrite])
        refine ⟨_, hend, ?_⟩
        have h1 : min k (min buf n) = k := by omega
        have h2 : min n k = k := by omega
        simp only [hread, hwrite, http.taken, hr, List.take_replicate, h1, h2, hw]
        simp

/-! ## The upload loop: a limited, counted request body copied to `io.Discard` -/

theorem readCloser_read {ρ : Type} [io.Reader ρ] (w : slogging.ReadCloser ρ) (len : Nat) :
    io.Reader.Read w len =
      ⟨(io.Reader.Read w.inner len).data, (io.Reader.Read w.inner len).err,
        ⟨(io.Reader.Read w.inner len).next, w.count + (io.Reader.Read w.inner len).data.length⟩⟩ := rfl

theorem body_read (b : http.Body) (len : Nat) : io.Reader.Read b len = http.Body.Read b len := rfl

theorem limited_read_zero {ρ : Type} [io.Reader ρ] (r : ρ) (buf : Nat) :
    io.Reader.Read (io.LimitReader r (0 : Int)) buf = ⟨[], some .EOF, io.LimitReader r (0 : Int)⟩ := by
  show io.LimitedReader.Read _ _ = _
  simp [io.LimitedReader.Read, io.LimitReader]

theorem limitedBody_read_nil (b : http.Body) (cnt n buf : Nat) (hn : 0 < n) (hc : b.chunks = []) :
    io.Reader.Read (io.LimitReader (slogging.ReadCloser.mk b cnt) (n : Int)) buf =
      ⟨[], some b.final, io.LimitReader (slogging.ReadCloser.mk b cnt) (n : Int)⟩ := by
  show io.LimitedReader.Read _ _ = _
  have h1 : ¬ ((n : Int) ≤ 0) := by omega
  simp only [io.LimitedReader.Read, io.LimitReader, h1, if_false]
  simp [readCloser_read, body_read, http.Body.Read, hc]

theorem limitedBody_read_cons (b : http.Body) (cnt n buf : Nat) (hn : 0 < n) (c : List Nat)
    (rest : List (List Nat)) (hc : b.chunks = c :: rest) :
    io.Reader.Read (io.LimitReader (slogging.ReadCloser.mk b cnt) (n : Int)) buf =
      ⟨c.take (min buf n), none,
        io.LimitReader
          (slogging.ReadCloser.mk
            { b with chunks := if c.drop (min buf n) = [] then rest else c.drop (min buf n) :: rest,
                     delivered := b.delivered + (c.take (min buf n)).length }
            (cnt + (c.take (min buf n)).length))
          ((n - (c.take (min buf n)).length : Nat) : Int)⟩ := by
  show io.LimitedReader.Read _ _ = _
  have h1 : ¬ ((n : Int) ≤ 0) := by omega
  simp only [io.LimitedReader.Read, io.LimitReader, h1, if_false]
  have hlen : (if (buf : Int) > (n : Int) then (n : Int).toNat else buf) = min buf n := by
    by_cases hb : (buf : Int) > (n : Int)
    · simp only [hb, if_true]; omega
    · simp only [hb, if_false]; omega
  simp only [readCloser_read, body_read, http.Body.Read, hc, hlen]
  have hle : (c.take (min buf n)).length ≤ n := by
    simp only [List.length_take]; omega
  congr 2
  omega

theorem limitReader_R {ρ : Type} (r : ρ) (n : Int) : (io.LimitReader r n).R = r := rfl

theorem discard_write (d : io.Discard) (p : List Nat) :
    io.Writer.Write d p = ⟨(p.length : Int), none, d⟩ := rfl

theorem min_sub_add (n d r : Nat) (hdn : d ≤ n) (hdr : d ≤ r) : min (n - d) (r - d) + d = min n r := by
  omega

theorem sub_le_sub_iff_of_le (n d r : Nat) (hdn : d ≤ n) (hdr : d ≤ r) : n - d ≤ r - d ↔ n ≤ r := by
  omega

theorem bodyAfterRead_measure (b : http.Body) (c : List Nat) (rest : List (List Nat)) (m : Nat)
    (hm : 0 < m) (hc : b.chunks = c :: rest) :
    (bodyAfterRead b c rest m).chunks.length + (bodyAfterRead b c rest m).remaining
        < b.chunks.length + b.remaining ∧
      (bodyAfterRead b c rest m).remaining = b.remaining - (c.take m).length ∧
      (c.take m).length ≤ b.remaining := by
  have hrem : b.remaining = c.length + (rest.map List.length).sum := by
    simp [http.Body.remaining, hc]
  have hlen : (c.take m).length = min m c.length := List.length_take _ _
  have h3 : b.chunks.length = rest.length + 1 := by simp [hc]
  by_cases hdrop : c.drop m = []
  · have hle : c.length ≤ m := List.drop_eq_nil_iff.mp hdrop
    have h1 : (bodyAfterRead b c rest m).remaining = (rest.map List.length).sum := by
      simp [http.Body.remaining, bodyAfterRead, hdrop]
    have h2 : (bodyAfterRead b c rest m).chunks.length = rest.length := by
      simp [bodyAfterRead, hdrop]
    omega
  · have hlt : m < c.length := by
      by_contra hcon
      exact hdrop (List.drop_eq_nil_iff.mpr (by omega))
    have h1 : (bodyAfterRead b c rest m).remaining = (c.length - m) + (rest.map List.length).sum := by
      simp [http.Body.remaining, bodyAfterRead, hdrop]
    have h2 : (bodyAfterRead b c rest m).chunks.length = rest.length + 1 := by
      simp [bodyAfterRead, hdrop]
    omega

/-- One round of the upload loop on a body that still has a segment. -/
theorem putLoop_step (buf : Nat) (fuel : Nat) (b : http.Body) (cnt n : Nat) (written : Int)
    (hn : 0 < n) (c : List Nat) (rest : List (List Nat)) (hc : b.chunks = c :: rest) :
    io.copyBufferLoop (fuel + 1) io.Discard.mk
        (io.LimitReader (slogging.ReadCloser.mk b cnt) (n : Int)) buf written =
      io.copyBufferLoop fuel io.Discard.mk
        (io.LimitReader (slogging.ReadCloser.mk (bodyAfterRead b c rest (min buf n))
            (cnt + (c.take (min buf n)).length))
          ((n - (c.take (min buf n)).length : Nat) : Int)) buf
        (written + ((c.take (min buf n)).length : Int)) := by
  have hread := limitedBody_read_cons b cnt n buf hn c rest hc
  by_cases hd : 0 < (c.take (min buf n)).length
  · have := io.copyBufferLoop_data fuel io.Discard.mk
      (io.LimitReader (slogging.ReadCloser.mk b cnt) (n : Int)) buf written
      (by rw [hread]; exact hd) (by rw [hread]) (by rw [hread, discard_write])
      (by rw [hread, discard_write])
    rw [this, hread, discard_write]
    rfl
  · have hz : (c.take (min buf n)).length = 0 := by omega
    have := io.copyBufferLoop_idle fuel io.Discard.mk
      (io.LimitReader (slogging.ReadCloser.mk b cnt) (n : Int)) buf written
      (by rw [hread]; exact List.length_eq_zero.mp hz) (by rw [hread])
    rw [this, hread, hz]
    simp [bodyAfterRead, hz]

/-- The upload loop ends within `fuel` rounds when `fuel` exceeds the number of
segments plus the number of bytes of the body; it takes `min n remaining` bytes
from the body, and reports the final error of the body only when the body ends
before `n` bytes and that error is not `io.EOF`. -/
theorem putLoop_result (buf : Nat) (hbuf : 0 < buf) :
    ∀ (fuel : Nat) (b : http.Body) (cnt n : Nat) (written : Int),
      b.chunks.length + b.remaining < fuel →
      ∃ c, io.copyBufferLoop fuel io.Discard.mk
          (io.LimitReader (slogging.ReadCloser.mk b cnt) (n : Int)) buf written = some c ∧
        c.src.R.inner.delivered = b.delivered + min n b.remaining ∧
        c.src.R.inner.remaining = b.remaining - min n b.remaining ∧
        c.src.R.inner.closed = b.closed ∧ c.src.R.inner.final = b.final ∧
        c.src.R.count = cnt + min n b.remaining ∧
        c.written = written + ((min n b.remaining : Nat) : Int) ∧
        c.err = (if n ≤ b.remaining then none else if b.final = .EOF then none else some b.final) := by
  intro fuel
  induction fuel with
  | zero => intro b cnt n written h; omega
  | succ fuel ih =>
    intro b cnt n written hfuel
    rcases Nat.eq_zero_or_pos n with hn | hn
    · subst hn
      refine ⟨_, io.copyBufferLoop_end fuel _ _ buf written .EOF ?_ ?_, ?_⟩
      · simp [limited_read_zero]
      · simp [limited_read_zero]
      · simp [limited_read_zero, limitReader_R]
    · cases hc : b.chunks with
      | nil =>
        have hread := limitedBody_read_nil b cnt n buf hn hc
        have hrem : b.remaining = 0 := by simp [http.Body.remaining, hc]
        refine ⟨_, io.copyBufferLoop_end fuel _ _ buf written b.final ?_ ?_, ?_⟩
        · simp [hread]
        · simp [hread]
        · have hnle : ¬ (n ≤ 0) := by omega
          simp [hread, limitReader_R, hrem, hnle]
      | cons c rest =>
        have hm : 0 < min buf n := by omega
        obtain ⟨hlt, hrem', hdr⟩ := bodyAfterRead_measure b c rest (min buf n) hm hc
        have hdn : (c.take (min buf n)).length ≤ n := by
          have : (c.take (min buf n)).length = min (min buf n) c.length := List.length_take _ _
          omega
        have hstep := putLoop_step buf fuel b cnt n written hn c rest hc
        have hd' : (bodyAfterRead b c rest (min buf n)).delivered =
            b.delivered + (c.take (min buf n)).length := rfl
        have hc' : (bodyAfterRead b c rest (min buf n)).closed = b.closed := rfl
        have hf' : (bodyAfterRead b c rest (min buf n)).final = b.final := rfl
        have hfuel' : (bodyAfterRead b c rest (min buf n)).chunks.length +
            (bodyAfterRead b c rest (min buf n)).remaining < fuel := by omega
        obtain ⟨r, hr, h1, h2, h3, h4, h5, h6, h7⟩ := ih (bodyAfterRead b c rest (min buf n))
          (cnt + (c.take (min buf n)).length) (n - (c.take (min buf n)).length)
          (written + ((c.take (min buf n)).length : Int)) hfuel'
        rw [← hstep] at hr
        refine ⟨r, hr, ?_⟩
        clear hstep hr ih hlt hfuel' hfuel
        generalize (c.take (min buf n)).length = d at *
        generalize bodyAfterRead b c rest (min buf n) = b' at *
        rw [h1, h2, h3, h4, h5, h6, h7, hd', hc', hf', hrem']
        have key := min_sub_add n d b.remaining hdn hdr
        have hiff := sub_le_sub_iff_of_le n d b.remaining hdn hdr
        clear h1 h2 h3 h4 h5 h6 h7 hd' hc' hf' hrem'
        refine ⟨?_, ?_, rfl, rfl, ?_, ?_, ?_⟩
        · rw [← key]; omega
        · rw [← key]; omega
        · rw [← key]; omega
        · rw [← key]; push_cast; omega
        · simp only [hiff]

/-! ## The handlers on a valid size -/

theorem bufLen_eq : (1 <<< 20 : Nat) = 1048576 := by decide

/-- The copy of `serveHandleGet`, common to both servers: after the header is
set and the status written, the loop ends and leaves `taken room n` fill bytes
in the body. -/
theorem getCopy_result (fuel : Nat) (room : Option Nat) (count : Int) (hcount : 0 ≤ count)
    (hfuel : count.toNat / 2 ^ 20 + 2 ≤ fuel) :
    ∃ c, io.CopyBuffer fuel
        (((http.ResponseWriter.fresh room).HeaderSet "Content-Length" (strconv.FormatInt count)).WriteHeader
          http.StatusOK)
        (io.LimitReader infinite.Reader.mk count) (1 <<< 20) = some c ∧
      c.dst.body = List.replicate (http.taken room count.toNat) infinite.fill ∧
      c.dst.status = 200 ∧
      c.dst.sentHeader = [("Content-Length", strconv.FormatInt count)] := by
  have hc : count = ((count.toNat : Nat) : Int) := (Int.toNat_of_nonneg hcount).symm
  have hf : count.toNat + 1048576 ≤ fuel * 1048576 := by
    norm_num at hfuel
    omega
  obtain ⟨c, h, hb, hs, hh, -, -⟩ := getLoop_result 1048576 (by decide) fuel count.toNat
    (((http.ResponseWriter.fresh room).HeaderSet "Content-Length" (strconv.FormatInt count)).WriteHeader
      http.StatusOK) 0 rfl hf
  refine ⟨c, ?_, ?_, ?_, ?_⟩
  · rw [io.CopyBuffer, bufLen_eq]
    rw [← hc] at h
    exact h
  · rw [hb]; rfl
  · rw [hs]; rfl
  · rw [hh]; rfl

theorem gohttp1_get_valid (fuel : Nat) (room : Option Nat) (req : http.Request) (count : Int)
    (hparse : strconv.ParseInt req.size = .ok count) (hcount : 0 ≤ count)
    (hfuel : count.toNat / 2 ^ 20 + 2 ≤ fuel) :
    ∃ s, gohttp1.serveHandleGet fuel (.fresh room) req = some s ∧
      s.rw.body = List.replicate (http.taken room count.toNat) infinite.fill ∧
      s.rw.status = 200 ∧
      s.rw.sentHeader = [("Content-Length", strconv.FormatInt count)] ∧
      s.body = req.Body ∧
      s.log = [⟨"GET", [⟨"count", .Int64 count⟩]⟩] := by
  obtain ⟨c, h, hb, hs, hh⟩ := getCopy_result fuel room count hcount hfuel
  refine ⟨⟨c.dst, req.Body, [⟨"GET", [⟨"count", .Int64 count⟩]⟩]⟩, ?_, hb, hs, hh, rfl, rfl⟩
  simp only [gohttp1.serveHandleGet, hparse, not_lt.mpr hcount, if_false, h]
  rfl

theorem gohttp2c_get_valid (fuel : Nat) (room : Option Nat) (req : http.Request) (count : Int)
    (hparse : strconv.ParseInt req.size = .ok count) (hcount : 0 ≤ count)
    (hfuel : count.toNat / 2 ^ 20 + 2 ≤ fuel) :
    ∃ s, gohttp2c.serveHandleGet fuel (.fresh room) req = some s ∧
      s.rw.body = List.replicate (http.taken room count.toNat) infinite.fill ∧
      s.rw.status = 200 ∧
      s.rw.sentHeader = [("Content-Length", strconv.FormatInt count)] ∧
      s.body = req.Body ∧
      s.log = [⟨"GET", [⟨"count", .Int64 count⟩, ⟨"proto", .String req.Proto⟩]⟩] := by
  obtain ⟨c, h, hb, hs, hh⟩ := getCopy_result fuel room count hcount hfuel
  refine ⟨⟨c.dst, req.Body, [⟨"GET", [⟨"count", .Int64 count⟩, ⟨"proto", .String req.Proto⟩]⟩]⟩,
    ?_, hb, hs, hh, rfl, rfl⟩
  simp only [gohttp2c.serveHandleGet, hparse, not_lt.mpr hcount, if_false, h]
  rfl

/-- The copy of `serveHandlePut`, common to both servers. -/
theorem putCopy_result (fuel : Nat) (body : http.Body) (count : Int) (hcount : 0 ≤ count)
    (hfuel : body.chunks.length + body.remaining < fuel) :
    ∃ c, io.CopyBuffer fuel io.Discard.mk
        (io.LimitReader (slogging.NewReadCloser body) count) (1 <<< 20) = some c ∧
      c.src.R.Close.inner.delivered = body.delivered + min count.toNat body.remaining ∧
      c.src.R.Close.inner.remaining = body.remaining - min count.toNat body.remaining ∧
      c.src.R.Close.inner.closed = true := by
  have hc : count = ((count.toNat : Nat) : Int) := (Int.toNat_of_nonneg hcount).symm
  obtain ⟨c, h, hd, hr, -, -, -, -, -⟩ := putLoop_result 1048576 (by decide) fuel body 0 count.toNat 0 hfuel
  refine ⟨c, ?_, ?_, ?_, rfl⟩
  · rw [io.CopyBuffer, bufLen_eq]
    rw [← hc] at h
    exact h
  · exact hd
  · exact hr

theorem gohttp1_put_valid (fuel : Nat) (room : Option Nat) (req : http.Request) (count : Int)
    (hparse : strconv.ParseInt req.size = .ok count) (hcount : 0 ≤ count)
    (hfuel : req.Body.chunks.length + req.Body.remaining < fuel) :
    ∃ s, gohttp1.serveHandlePut fuel (.fresh room) req = some s ∧
      s.rw = ⟨[], true, 204, [], [], room⟩ ∧
      s.body.delivered = req.Body.delivered + min count.toNat req.Body.remaining ∧
      s.body.remaining = req.Body.remaining - min count.toNat req.Body.remaining ∧
      s.body.closed = true ∧
      s.log = [⟨"PUT", [⟨"expectCount", .Int64 count⟩]⟩] := by
  obtain ⟨c, h, hd, hr, hcl⟩ := putCopy_result fuel req.Body count hcount hfuel
  refine ⟨⟨⟨[], true, 204, [], [], room⟩, c.src.R.Close.inner, [⟨"PUT", [⟨"expectCount", .Int64 count⟩]⟩]⟩,
    ?_, rfl, hd, hr, hcl, rfl⟩
  simp only [gohttp1.serveHandlePut, hparse, not_lt.mpr hcount, if_false, h]
  rfl

theorem gohttp2c_put_valid (fuel : Nat) (room : Option Nat) (req : http.Request) (count : Int)
    (hparse : strconv.ParseInt req.size = .ok count) (hcount : 0 ≤ count)
    (hfuel : req.Body.chunks.length + req.Body.remaining < fuel) :
    ∃ s, gohttp2c.serveHandlePut fuel (.fresh room) req = some s ∧
      s.rw = ⟨[], true, 204, [], [], room⟩ ∧
      s.body.delivered = req.Body.delivered + min count.toNat req.Body.remaining ∧
      s.body.remaining = req.Body.remaining - min count.toNat req.Body.remaining ∧
      s.body.closed = true ∧
      s.log = [⟨"PUT", [⟨"expectCount", .Int64 count⟩, ⟨"proto", .String req.Proto⟩]⟩] := by
  obtain ⟨c, h, hd, hr, hcl⟩ := putCopy_result fuel req.Body count hcount hfuel
  refine ⟨⟨⟨[], true, 204, [], [], room⟩, c.src.R.Close.inner,
    [⟨"PUT", [⟨"expectCount", .Int64 count⟩, ⟨"proto", .String req.Proto⟩]⟩]⟩, ?_, rfl, hd, hr, hcl, rfl⟩
  simp only [gohttp2c.serveHandlePut, hparse, not_lt.mpr hcount, if_false, h]
  rfl

/-- Every handler on a size that does not parse, or parses to a negative
number: status 400 and nothing else, whatever the fuel. -/
theorem handlers_invalid (fuel : Nat) (rw : http.ResponseWriter) (req : http.Request)
    (h : ∀ c, strconv.ParseInt req.size = .ok c → c < 0) :
    gohttp1.serveHandleGet fuel rw req = some ⟨rw.WriteHeader 400, req.Body, []⟩ ∧
    gohttp1.serveHandlePut fuel rw req = some ⟨rw.WriteHeader 400, req.Body, []⟩ ∧
    gohttp2c.serveHandleGet fuel rw req = some ⟨rw.WriteHeader 400, req.Body, []⟩ ∧
    gohttp2c.serveHandlePut fuel rw req = some ⟨rw.WriteHeader 400, req.Body, []⟩ := by
  cases hp : strconv.ParseInt req.size with
  | error e =>
    simp [gohttp1.serveHandleGet, gohttp1.serveHandlePut, gohttp2c.serveHandleGet,
      gohttp2c.serveHandlePut, hp, http.StatusBadRequest]
  | ok c =>
    have hc := h c hp
    simp [gohttp1.serveHandleGet, gohttp1.serveHandlePut, gohttp2c.serveHandleGet,
      gohttp2c.serveHandlePut, hp, hc, http.StatusBadRequest]

/-! ## The handlers: download -/

/-- C1: for every request whose size segment parses to `count ≥ 0`, when the
response writer takes every write, `serveHandleGet` of gohttp1 and of gohttp2c
ends (given `count / 2^20 + 2` rounds of the copy loop or more), sets
Content-Length to the decimal rendering of `count`, writes status 200, and
leaves exactly `count` bytes in the response body. -/
theorem serveHandleGet_streams_exactly_count (fuel : Nat) (room : Option Nat) (req : http.Request)
    (count : Int) (hparse : strconv.ParseInt req.size = .ok count) (hcount : 0 ≤ count)
    (hroom : ∀ k, room = some k → count.toNat ≤ k)
    (hfuel : count.toNat / 2 ^ 20 + 2 ≤ fuel) :
    ∃ s1 s2, gohttp1.serveHandleGet fuel (.fresh room) req = some s1 ∧
      gohttp2c.serveHandleGet fuel (.fresh room) req = some s2 ∧
      s1.rw.sentHeader = [("Content-Length", strconv.FormatInt count)] ∧
      s1.rw.status = http.StatusOK ∧ (s1.rw.body.length : Int) = count ∧
      s2.rw.sentHeader = [("Content-Length", strconv.FormatInt count)] ∧
      s2.rw.status = http.StatusOK ∧ (s2.rw.body.length : Int) = count := by
  have htaken : http.taken room count.toNat = count.toNat := by
    cases room with
    | none => rfl
    | some k => simp only [http.taken]; have := hroom k rfl; omega
  obtain ⟨s1, h1, hb1, hs1, hh1, -, -⟩ := gohttp1_get_valid fuel room req count hparse hcount hfuel
  obtain ⟨s2, h2, hb2, hs2, hh2, -, -⟩ := gohttp2c_get_valid fuel room req count hparse hcount hfuel
  refine ⟨s1, s2, h1, h2, hh1, hs1, ?_, hh2, hs2, ?_⟩
  · rw [hb1, htaken, List.length_replicate]; exact Int.toNat_of_nonneg hcount
  · rw [hb2, htaken, List.length_replicate]; exact Int.toNat_of_nonneg hcount

theorem serveHandleGet_streams_exactly_count_witness :
    ∃ s1 s2,
      gohttp1.serveHandleGet 3 (.fresh none) ⟨"1048576", "HTTP/1.1", ⟨[], .EOF, 0, false⟩⟩ = some s1 ∧
      gohttp2c.serveHandleGet 3 (.fresh none) ⟨"1048576", "HTTP/1.1", ⟨[], .EOF, 0, false⟩⟩ = some s2 ∧
      s1.rw.sentHeader = [("Content-Length", strconv.FormatInt 1048576)] ∧
      s1.rw.status = http.StatusOK ∧ (s1.rw.body.length : Int) = 1048576 ∧
      s2.rw.sentHeader = [("Content-Length", strconv.FormatInt 1048576)] ∧
      s2.rw.status = http.StatusOK ∧ (s2.rw.body.length : Int) = 1048576 :=
  serveHandleGet_streams_exactly_count 3 none ⟨"1048576", "HTTP/1.1", ⟨[], .EOF, 0, false⟩⟩ 1048576
    (by decide) (by decide) (by intro k h; cases h) (by decide)

/-! ## The handlers: invalid size -/

/-- C2: for every request whose size segment does not parse as a signed 64-bit
decimal, or parses to a negative number, `serveHandleGet` and `serveHandlePut`
of both servers answer 400, write no body byte, set no Content-Length header
(the header map and the sent headers stay empty) and leave the request body as
it was (no byte read), whatever the fuel. -/
theorem invalid_size_rejected (fuel : Nat) (room : Option Nat) (req : http.Request)
    (h : ∀ c, strconv.ParseInt req.size = .ok c → c < 0) :
    ∃ s, gohttp1.serveHandleGet fuel (.fresh room) req = some s ∧
      gohttp1.serveHandlePut fuel (.fresh room) req = some s ∧
      gohttp2c.serveHandleGet fuel (.fresh room) req = some s ∧
      gohttp2c.serveHandlePut fuel (.fresh room) req = some s ∧
      s.rw.status = http.StatusBadRequest ∧ s.rw.body = [] ∧
      s.rw.header = [] ∧ s.rw.sentHeader = [] ∧
      s.body = req.Body ∧ s.body.delivered = req.Body.delivered := by
  obtain ⟨h1, h2, h3, h4⟩ := handlers_invalid fuel (.fresh room) req h
  exact ⟨_, h1, h2, h3, h4, rfl, rfl, rfl, rfl, rfl, rfl⟩

theorem invalid_size_rejected_witness :
    ∃ s, gohttp1.serveHandleGet 0 (.fresh none) ⟨"-1", "HTTP/1.1", ⟨[[1, 2]], .EOF, 0, false⟩⟩ = some s ∧
      gohttp1.serveHandlePut 0 (.fresh none) ⟨"-1", "HTTP/1.1", ⟨[[1, 2]], .EOF, 0, false⟩⟩ = some s ∧
      gohttp2c.serveHandleGet 0 (.fresh none) ⟨"-1", "HTTP/1.1", ⟨[[1, 2]], .EOF, 0, false⟩⟩ = some s ∧
      gohttp2c.serveHandlePut 0 (.fresh none) ⟨"-1", "HTTP/1.1", ⟨[[1, 2]], .EOF, 0, false⟩⟩ = some s ∧
      s.rw.status = http.StatusBadRequest ∧ s.rw.body = [] ∧
      s.rw.header = [] ∧ s.rw.sentHeader = [] ∧
      s.body = ⟨[[1, 2]], .EOF, 0, false⟩ ∧ s.body.delivered = 0 :=
  invalid_size_rejected 0 none ⟨"-1", "HTTP/1.1", ⟨[[1, 2]], .EOF, 0, false⟩⟩
    (by
      intro c hc
      have h1 : strconv.ParseInt "-1" = .ok (-1) := by decide
      change strconv.ParseInt "-1" = .ok c at hc
      rw [h1] at hc
      injection hc with hc
      omega)

/-! ## The handlers: upload -/

/-- C3: for every valid size `count ≥ 0` and every request body that holds at
least `count` bytes, `serveHandlePut` of both servers ends (given more rounds
than the body has segments and bytes), takes exactly `count` bytes from the
body, writes none of them anywhere, and answers 204 with an empty body. -/
theorem serveHandlePut_reads_exactly_count (fuel : Nat) (room : Option Nat) (req : http.Request)
    (count : Int) (hparse : strconv.ParseInt req.size = .ok count) (hcount : 0 ≤ count)
    (hbody : count.toNat ≤ req.Body.remaining)
    (hfuel : req.Body.chunks.length + req.Body.remaining < fuel) :
    ∃ s1 s2, gohttp1.serveHandlePut fuel (.fresh room) req = some s1 ∧
      gohttp2c.serveHandlePut fuel (.fresh room) req = some s2 ∧
      s1.body.delivered = req.Body.delivered + count.toNat ∧
      s1.rw.status = http.StatusNoContent ∧ s1.rw.body = [] ∧
      s2.body.delivered = req.Body.delivered + count.toNat ∧
      s2.rw.status = http.StatusNoContent ∧ s2.rw.body = [] := by
  obtain ⟨s1, h1, hrw1, hd1, -, -, -⟩ := gohttp1_put_valid fuel room req count hparse hcount hfuel
  obtain ⟨s2, h2, hrw2, hd2, -, -, -⟩ := gohttp2c_put_valid fuel room req count hparse hcount hfuel
  have hmin : min count.toNat req.Body.remaining = count.toNat := by omega
  refine ⟨s1, s2, h1, h2, ?_, ?_, ?_, ?_, ?_, ?_⟩
  · rw [hd1, hmin]
  · rw [hrw1]; rfl
  · rw [hrw1]
  · rw [hd2, hmin]
  · rw [hrw2]; rfl
  · rw [hrw2]

theorem serveHandlePut_reads_exactly_count_witness :
    ∃ s1 s2,
      gohttp1.serveHandlePut 9 (.fresh none) ⟨"3", "HTTP/1.1", ⟨[[1, 2], [3, 4, 5]], .EOF, 0, false⟩⟩
        = some s1 ∧
      gohttp2c.serveHandlePut 9 (.fresh none) ⟨"3", "HTTP/1.1", ⟨[[1, 2], [3, 4, 5]], .EOF, 0, false⟩⟩
        = some s2 ∧
      s1.body.delivered = 0 + (3 : Int).toNat ∧
      s1.rw.status = http.StatusNoContent ∧ s1.rw.body = [] ∧
      s2.body.delivered = 0 + (3 : Int).toNat ∧
      s2.rw.status = http.StatusNoContent ∧ s2.rw.body = [] :=
  serveHandlePut_reads_exactly_count 9 none ⟨"3", "HTTP/1.1", ⟨[[1, 2], [3, 4, 5]], .EOF, 0, false⟩⟩ 3
    (by decide) (by decide) (by decide) (by decide)

/-- C4, as stated, fails: the size is 5, the body breaks off with a transport
error after 2 bytes, and `serveHandlePut` of both servers still answers 204. -/
theorem short_upload_acknowledged :
    http.Body.remaining ⟨[[1, 2]], .transport 1, 0, false⟩ < 5 ∧
    (gohttp1.serveHandlePut 4 (.fresh none) ⟨"5", "HTTP/1.1", ⟨[[1, 2]], .transport 1, 0, false⟩⟩).map
      (fun s => s.rw.status) = some http.StatusNoContent ∧
    (gohttp2c.serveHandlePut 4 (.fresh none) ⟨"5", "HTTP/2.0", ⟨[[1, 2]], .transport 1, 0, false⟩⟩).map
      (fun s => s.rw.status) = some http.StatusNoContent := by
  decide

/-- C4, amended: for every valid size `count > 0` and every request body that
ends, with `io.EOF` or with an error, after fewer than `count` bytes,
`serveHandlePut` of both servers ends, has taken every byte the body held,
drops the result of the copy, and answers 204 with an empty body. -/
theorem serveHandlePut_short_body (fuel : Nat) (room : Option Nat) (req : http.Request)
    (count : Int) (hparse : strconv.ParseInt req.size = .ok count) (hcount : 0 < count)
    (hbody : req.Body.remaining < count.toNat)
    (hfuel : req.Body.chunks.length + req.Body.remaining < fuel) :
    ∃ s1 s2, gohttp1.serveHandlePut fuel (.fresh room) req = some s1 ∧
      gohttp2c.serveHandlePut fuel (.fresh room) req = some s2 ∧
      s1.body.delivered = req.Body.delivered + req.Body.remaining ∧ s1.body.remaining = 0 ∧
      s1.rw.status = http.StatusNoContent ∧ s1.rw.body = [] ∧
      s2.body.delivered = req.Body.delivered + req.Body.remaining ∧ s2.body.remaining = 0 ∧
      s2.rw.status = http.StatusNoContent ∧ s2.rw.body = [] := by
  obtain ⟨s1, h1, hrw1, hd1, hr1, -, -⟩ :=
    gohttp1_put_valid fuel room req count hparse (le_of_lt hcount) hfuel
  obtain ⟨s2, h2, hrw2, hd2, hr2, -, -⟩ :=
    gohttp2c_put_valid fuel room req count hparse (le_of_lt hcount) hfuel
  have hmin : min count.toNat req.Body.remaining = req.Body.remaining := by omega
  refine ⟨s1, s2, h1, h2, ?_, ?_, ?_, ?_, ?_, ?_, ?_, ?_⟩
  · rw [hd1, hmin]
  · rw [hr1, hmin]; omega
  · rw [hrw1]; rfl
  · rw [hrw1]
  · rw [hd2, hmin]
  · rw [hr2, hmin]; omega
  · rw [hrw2]; rfl
  · rw [hrw2]

theorem serveHandlePut_short_body_witness :
    ∃ s1 s2,
      gohttp1.serveHandlePut 4 (.fresh none) ⟨"5", "HTTP/1.1", ⟨[[1, 2]], .transport 1, 0, false⟩⟩
        = some s1 ∧
      gohttp2c.serveHandlePut 4 (.fresh none) ⟨"5", "HTTP/1.1", ⟨[[1, 2]], .transport 1, 0, false⟩⟩
        = some s2 ∧
      s1.body.delivered = 0 + http.Body.remaining ⟨[[1, 2]], .transport 1, 0, false⟩ ∧
      s1.body.remaining = 0 ∧
      s1.rw.status = http.StatusNoContent ∧ s1.rw.body = [] ∧
      s2.body.delivered = 0 + http.Body.remaining ⟨[[1, 2]], .transport 1, 0, false⟩ ∧
      s2.body.remaining = 0 ∧
      s2.rw.status = http.StatusNoContent ∧ s2.rw.body = [] :=
  serveHandlePut_short_body 4 none ⟨"5", "HTTP/1.1", ⟨[[1, 2]], .transport 1, 0, false⟩⟩ 5
    (by decide) (by decide) (by decide) (by decide)

/-- C5: for every valid size `count ≥ 0` and every request body, of any length,
`serveHandlePut` of both servers ends, has taken at most `count` bytes from the
body and answers 204; when `count` is 0 it has taken no byte at all. -/
theorem serveHandlePut_reads_at_most_count (fuel : Nat) (room : Option Nat) (req : http.Request)
    (count : Int) (hparse : strconv.ParseInt req.size = .ok count) (hcount : 0 ≤ count)
    (hfuel : req.Body.chunks.length + req.Body.remaining < fuel) :
    ∃ s1 s2, gohttp1.serveHandlePut fuel (.fresh room) req = some s1 ∧
      gohttp2c.serveHandlePut fuel (.fresh room) req = some s2 ∧
      s1.body.delivered ≤ req.Body.delivered + count.toNat ∧
      s2.body.delivered ≤ req.Body.delivered + count.toNat ∧
      s1.rw.status = http.StatusNoContent ∧ s2.rw.status = http.StatusNoContent ∧
      (count = 0 → s1.body.delivered = req.Body.delivered ∧ s2.body.delivered = req.Body.delivered) := by
  obtain ⟨s1, h1, hrw1, hd1, -, -, -⟩ := gohttp1_put_valid fuel room req count hparse hcount hfuel
  obtain ⟨s2, h2, hrw2, hd2, -, -, -⟩ := gohttp2c_put_valid fuel room req count hparse hcount hfuel
  refine ⟨s1, s2, h1, h2, ?_, ?_, ?_, ?_, ?_⟩
  · rw [hd1]; omega
  · rw [hd2]; omega
  · rw [hrw1]; rfl
  · rw [hrw2]; rfl
  · intro h0
    subst h0
    rw [hd1, hd2]
    simp

theorem serveHandlePut_reads_at_most_count_witness :
    ∃ s1 s2,
      gohttp1.serveHandlePut 5 (.fresh none) ⟨"0", "HTTP/1.1", ⟨[[1, 2, 3]], .EOF, 0, false⟩⟩ = some s1 ∧
      gohttp2c.serveHandlePut 5 (.fresh none) ⟨"0", "HTTP/1.1", ⟨[[1, 2, 3]], .EOF, 0, false⟩⟩ = some s2 ∧
      s1.body.delivered ≤ 0 + (0 : Int).toNat ∧
      s2.body.delivered ≤ 0 + (0 : Int).toNat ∧
      s1.rw.status = http.StatusNoContent ∧ s2.rw.status = http.StatusNoContent ∧
      ((0 : Int) = 0 → s1.body.delivered = 0 ∧ s2.body.delivered = 0) :=
  serveHandlePut_reads_at_most_count 5 none ⟨"0", "HTTP/1.1", ⟨[[1, 2, 3]], .EOF, 0, false⟩⟩ 0
    (by decide) (by decide) (by decide)

/-! ## The handlers: what is logged, and the two servers compared -/

theorem serveFuel_spec (req : http.Request) (count : Int) (fuel : Nat)
    (hparse : strconv.ParseInt req.size = .ok count) (hfuel : serveFuel req ≤ fuel) :
    count.toNat / 2 ^ 20 + 2 ≤ fuel ∧ req.Body.chunks.length + req.Body.remaining < fuel := by
  simp only [serveFuel, hparse] at hfuel
  omega

/-- The cleartext HTTP/2 download handler is the HTTP/1.1 one with the `proto`
attribute added to each log record, for every fuel and response writer. -/
theorem gohttp2c_get_eq (fuel : Nat) (rw : http.ResponseWriter) (req : http.Request) :
    gohttp2c.serveHandleGet fuel rw req =
      (gohttp1.serveHandleGet fuel rw req).map
        (fun s => { s with log := s.log.map (addProto req.Proto) }) := by
  unfold gohttp2c.serveHandleGet gohttp1.serveHandleGet
  cases strconv.ParseInt req.size with
  | error e => rfl
  | ok count =>
    by_cases hc : count < 0
    · simp only [hc, if_true]; rfl
    · simp only [hc, if_false]
      cases io.CopyBuffer fuel
        ((rw.HeaderSet "Content-Length" (strconv.FormatInt count)).WriteHeader http.StatusOK)
        (io.LimitReader infinite.Reader.mk count) (1 <<< 20) with
      | none => rfl
      | some c => rfl

/-- The cleartext HTTP/2 upload handler is the HTTP/1.1 one with the `proto`
attribute added to each log record, for every fuel and response writer. -/
theorem gohttp2c_put_eq (fuel : Nat) (rw : http.ResponseWriter) (req : http.Request) :
    gohttp2c.serveHandlePut fuel rw req =
      (gohttp1.serveHandlePut fuel rw req).map
        (fun s => { s with log := s.log.map (addProto req.Proto) }) := by
  unfold gohttp2c.serveHandlePut gohttp1.serveHandlePut
  cases strconv.ParseInt req.size with
  | error e => rfl
  | ok count =>
    by_cases hc : count < 0
    · simp only [hc, if_true]; rfl
    · simp only [hc, if_false]
      cases io.CopyBuffer fuel io.Discard.mk
        (io.LimitReader (slogging.NewReadCloser req.Body) count) (1 <<< 20) with
      | none => rfl
      | some c => rfl

/-- Both HTTP/1.1 handlers end within `serveFuel req` rounds, on every request. -/
theorem gohttp1_handlers_end (fuel : Nat) (room : Option Nat) (req : http.Request)
    (hfuel : serveFuel req ≤ fuel) :
    (∃ g, gohttp1.serveHandleGet fuel (.fresh room) req = some g) ∧
    (∃ p, gohttp1.serveHandlePut fuel (.fresh room) req = some p) := by
  by_cases hv : ∃ c, strconv.ParseInt req.size = .ok c ∧ 0 ≤ c
  · obtain ⟨count, hparse, hcount⟩ := hv
    obtain ⟨hf1, hf2⟩ := serveFuel_spec req count fuel hparse hfuel
    obtain ⟨g, hg, -⟩ := gohttp1_get_valid fuel room req count hparse hcount hf1
    obtain ⟨p, hp, -⟩ := gohttp1_put_valid fuel room req count hparse hcount hf2
    exact ⟨⟨g, hg⟩, ⟨p, hp⟩⟩
  · have h : ∀ c, strconv.ParseInt req.size = .ok c → c < 0 := by
      intro c hc
      by_contra hneg
      exact hv ⟨c, hc, not_lt.mp hneg⟩
    obtain ⟨h1, h2, -, -⟩ := handlers_invalid fuel (.fresh room) req h
    exact ⟨⟨_, h1⟩, ⟨_, h2⟩⟩

/-- C6: in the ndt7 client, method GET logs and dials
`wss://<host>/ndt/v7/download` and, once the dial succeeds, runs `receiver` (never
`sender`); method PUT logs and dials `wss://<host>/ndt/v7/upload` and, once the
dial succeeds, runs `sender` (never `receiver`); `<host>` is
`net.JoinHostPort` of the address and port flags; any other method fails the
assertion with no dial and no role. -/
theorem ndt7_method_selects_role (f : ndt7.Flags) (dialFails : Bool) :
    (f.methodFlag = "GET" →
      ndt7.measureMain f dialFails =
        ⟨[.log ⟨"download", [⟨"url", .String
              ("wss://" ++ net.JoinHostPort f.addressFlag f.portFlag ++ "/ndt/v7/download")⟩]⟩,
            .dial ("wss://" ++ net.JoinHostPort f.addressFlag f.portFlag ++ "/ndt/v7/download") true] ++
          (if dialFails then [] else [.receiver "download"]),
          some (if dialFails then .fatal else .returned)⟩) ∧
    (f.methodFlag = "PUT" →
      ndt7.measureMain f dialFails =
        ⟨[.log ⟨"upload", [⟨"url", .String
              ("wss://" ++ net.JoinHostPort f.addressFlag f.portFlag ++ "/ndt/v7/upload")⟩]⟩,
            .dial ("wss://" ++ net.JoinHostPort f.addressFlag f.portFlag ++ "/ndt/v7/upload") true] ++
          (if dialFails then [] else [.sender "upload"]),
          some (if dialFails then .fatal else .returned)⟩) ∧
    (f.methodFlag ≠ "GET" → f.methodFlag ≠ "PUT" →
      ndt7.measureMain f dialFails = ⟨[], some (.assertFailed .method)⟩) := by
  refine ⟨?_, ?_, ?_⟩
  · intro h
    cases dialFails <;> simp [ndt7.measureMain, h, slog.Info, slog.String]
  · intro h
    have hne : ¬ (f.methodFlag = "GET") := by rw [h]; decide
    cases dialFails <;> simp [ndt7.measureMain, h, slog.Info, slog.String]
  · intro h1 h2
    simp [ndt7.measureMain, h1, h2]

theorem ndt7_method_selects_role_witness :
    ndt7.measureMain ⟨"::1", "GET", "4567"⟩ false =
      ⟨[.log ⟨"download", [⟨"url", .String "wss://[::1]:4567/ndt/v7/download"⟩]⟩,
        .dial "wss://[::1]:4567/ndt/v7/download" true, .receiver "download"], some .returned⟩ ∧
    ndt7.measureMain ⟨"127.0.0.1", "PUT", "4567"⟩ false =
      ⟨[.log ⟨"upload", [⟨"url", .String "wss://127.0.0.1:4567/ndt/v7/upload"⟩]⟩,
        .dial "wss://127.0.0.1:4567/ndt/v7/upload" true, .sender "upload"], some .returned⟩ ∧
    ndt7.measureMain ⟨"127.0.0.1", "POST", "4567"⟩ false = ⟨[], some (.assertFailed .method)⟩ :=
  ⟨(ndt7_method_selects_role ⟨"::1", "GET", "4567"⟩ false).1 rfl,
   (ndt7_method_selects_role ⟨"127.0.0.1", "PUT", "4567"⟩ false).2.1 rfl,
   (ndt7_method_selects_role ⟨"127.0.0.1", "POST", "4567"⟩ false).2.2 (by decide) (by decide)⟩

/-- The transport of the gohttp2 client is the second effect of every run that
gets past the cert file, and no later effect makes another client. -/
theorem gohttp2_client_effect (fuel : Nat) (f : gohttp2.Flags) (env : gohttp2.Env) (certs : List Nat)
    (hm : f.methodFlag = "GET" ∨ f.methodFlag = "PUT") (hc : f.certFlag ≠ "")
    (hfile : env.certFile = some certs) (hne : certs ≠ []) (t : http.Transport)
    (ht : t = (if f.http2Flag then
        http2.ConfigureTransports ⟨⟨certs, []⟩, f.http2Flag⟩ env.configureFails
      else ⟨⟨certs, ["http/1.1"]⟩, f.http2Flag⟩)) :
    (gohttp2.measureMain fuel f env).trace.take 2 = [.readFile f.certFlag, .client t] ∧
    ∀ t', Effect.client t' ∈ (gohttp2.measureMain fuel f env).trace → t' = t := by
  have hm' : ¬ ¬ (f.methodFlag = "GET" ∨ f.methodFlag = "PUT") := not_not.mpr hm
  have ht' : (if f.http2Flag = true then
      http2.ConfigureTransports
        ⟨if ¬ f.http2Flag = true then ⟨[] ++ certs, ["http/1.1"]⟩ else ⟨[] ++ certs, []⟩, f.http2Flag⟩
        env.configureFails
      else ⟨if ¬ f.http2Flag = true then ⟨[] ++ certs, ["http/1.1"]⟩ else ⟨[] ++ certs, []⟩,
        f.http2Flag⟩) = t := by
    rw [ht]
    cases f.http2Flag <;> simp
  simp only [gohttp2.measureMain, hm', hc, hfile, hne, if_false, not_true_eq_false, not_false_eq_true,
    ne_eq, ht']
  split
  · simp
  · split
    · simp
    · split
      · simp
      · split
        · simp
        · split <;> simp

/-- C7: in the gohttp2 client, once the method and cert assertions pass and the
cert file gives certificates, the transport of the client trusts exactly those
certificates, has `ForceAttemptHTTP2` equal to the http2 flag, offers exactly
`["http/1.1"]` when the flag is false, and a list other than `["http/1.1"]`
when it is true. -/
theorem gohttp2_alpn_follows_flag (fuel : Nat) (f : gohttp2.Flags) (env : gohttp2.Env)
    (certs : List Nat) (hm : f.methodFlag = "GET" ∨ f.methodFlag = "PUT") (hc : f.certFlag ≠ "")
    (hfile : env.certFile = some certs) (hne : certs ≠ []) :
    ∃ t, (gohttp2.measureMain fuel f env).trace.take 2 = [.readFile f.certFlag, .client t] ∧
      (∀ t', Effect.client t' ∈ (gohttp2.measureMain fuel f env).trace → t' = t) ∧
      t.TLSClientConfig.RootCAs = certs ∧ t.ForceAttemptHTTP2 = f.http2Flag ∧
      (f.http2Flag = false → t.TLSClientConfig.NextProtos = ["http/1.1"]) ∧
      (f.http2Flag = true → t.TLSClientConfig.NextProtos ≠ ["http/1.1"] ∧
        (env.configureFails = false → t.TLSClientConfig.NextProtos = ["h2", "http/1.1"])) := by
  obtain ⟨h1, h2⟩ := gohttp2_client_effect fuel f env certs hm hc hfile hne _ rfl
  refine ⟨_, h1, h2, ?_, ?_, ?_, ?_⟩
  · cases f.http2Flag <;> cases env.configureFails <;> simp [http2.ConfigureTransports]
  · cases f.http2Flag <;> cases env.configureFails <;> simp [http2.ConfigureTransports]
  · intro h; simp [h]
  · intro h
    cases hcf : env.configureFails <;> simp [h, http2.ConfigureTransports]

theorem gohttp2_alpn_follows_flag_witness :
    (∃ t, (gohttp2.measureMain 0 ⟨"127.0.0.1", 8, "cert.pem", false, "GET", "4443"⟩
          ⟨some [7], false, false, .error "refused"⟩).trace.take 2 = [.readFile "cert.pem", .client t] ∧
      (∀ t', Effect.client t' ∈ (gohttp2.measureMain 0 ⟨"127.0.0.1", 8, "cert.pem", false, "GET", "4443"⟩
          ⟨some [7], false, false, .error "refused"⟩).trace → t' = t) ∧
      t.TLSClientConfig.RootCAs = [7] ∧ t.ForceAttemptHTTP2 = false ∧
      (false = false → t.TLSClientConfig.NextProtos = ["http/1.1"]) ∧
      (false = true → t.TLSClientConfig.NextProtos ≠ ["http/1.1"] ∧
        (false = false → t.TLSClientConfig.NextProtos = ["h2", "http/1.1"]))) ∧
    (∃ t, (gohttp2.measureMain 0 ⟨"127.0.0.1", 8, "cert.pem", true, "PUT", "4443"⟩
          ⟨some [7], false, false, .error "refused"⟩).trace.take 2 = [.readFile "cert.pem", .client t] ∧
      (∀ t', Effect.client t' ∈ (gohttp2.measureMain 0 ⟨"127.0.0.1", 8, "cert.pem", true, "PUT", "4443"⟩
          ⟨some [7], false, false, .error "refused"⟩).trace → t' = t) ∧
      t.TLSClientConfig.RootCAs = [7] ∧ t.ForceAttemptHTTP2 = true ∧
      (true = false → t.TLSClientConfig.NextProtos = ["http/1.1"]) ∧
      (true = true → t.TLSClientConfig.NextProtos ≠ ["http/1.1"] ∧
        (false = false → t.TLSClientConfig.NextProtos = ["h2", "http/1.1"]))) :=
  ⟨gohttp2_alpn_follows_flag 0 ⟨"127.0.0.1", 8, "cert.pem", false, "GET", "4443"⟩
      ⟨some [7], false, false, .error "refused"⟩ [7] (by decide) (by decide) rfl (by decide),
   gohttp2_alpn_follows_flag 0 ⟨"127.0.0.1", 8, "cert.pem", true, "PUT", "4443"⟩
      ⟨some [7], false, false, .error "refused"⟩ [7] (by decide) (by decide) rfl (by decide)⟩

/-- C8: in each measure client (gohttp1, gohttp2, ndt7) the run ends on the
method assertion exactly when the method is neither "GET" nor "PUT", and then
nothing was done before: no file read, no client, request, send or dial. -/
theorem invalid_method_fails_at_startup (fuel : Nat) (f1 : gohttp1.Flags) (e1 : gohttp1.Env)
    (f2 : gohttp2.Flags) (e2 : gohttp2.Env) (f3 : ndt7.Flags) (dialFails : Bool) :
    ((gohttp1.measureMain fuel f1 e1).exit = some (.assertFailed .method) ↔
      (f1.methodFlag ≠ "GET" ∧ f1.methodFlag ≠ "PUT")) ∧
    (f1.methodFlag ≠ "GET" ∧ f1.methodFlag ≠ "PUT" → (gohttp1.measureMain fuel f1 e1).trace = []) ∧
    ((gohttp2.measureMain fuel f2 e2).exit = some (.assertFailed .method) ↔
      (f2.methodFlag ≠ "GET" ∧ f2.methodFlag ≠ "PUT")) ∧
    (f2.methodFlag ≠ "GET" ∧ f2.methodFlag ≠ "PUT" → (gohttp2.measureMain fuel f2 e2).trace = []) ∧
    ((ndt7.measureMain f3 dialFails).exit = some (.assertFailed .method) ↔
      (f3.methodFlag ≠ "GET" ∧ f3.methodFlag ≠ "PUT")) ∧
    (f3.methodFlag ≠ "GET" ∧ f3.methodFlag ≠ "PUT" → (ndt7.measureMain f3 dialFails).trace = []) := by
  refine ⟨?_, ?_, ?_, ?_, ?_, ?_⟩
  · by_cases h : f1.methodFlag = "GET" ∨ f1.methodFlag = "PUT"
    · have hn : ¬ (f1.methodFlag ≠ "GET" ∧ f1.methodFlag ≠ "PUT") := by tauto
      simp only [gohttp1.measureMain, h, not_true_eq_false, if_false, hn, iff_false]
      repeat' split
      all_goals simp
    · have hn : f1.methodFlag ≠ "GET" ∧ f1.methodFlag ≠ "PUT" := by tauto
      simp [gohttp1.measureMain, h, hn]
  · intro hn
    have h : ¬ (f1.methodFlag = "GET" ∨ f1.methodFlag = "PUT") := by tauto
    simp [gohttp1.measureMain, h]
  · by_cases h : f2.methodFlag = "GET" ∨ f2.methodFlag = "PUT"
    · have hn : ¬ (f2.methodFlag ≠ "GET" ∧ f2.methodFlag ≠ "PUT") := by tauto
      simp only [gohttp2.measureMain, h, not_true_eq_false, if_false, hn, iff_false]
      repeat' split
      all_goals simp
    · have hn : f2.methodFlag ≠ "GET" ∧ f2.methodFlag ≠ "PUT" := by tauto
      simp [gohttp2.measureMain, h, hn]
  · intro hn
    have h : ¬ (f2.methodFlag = "GET" ∨ f2.methodFlag = "PUT") := by tauto
    simp [gohttp2.measureMain, h]
  · by_cases h : f3.methodFlag = "GET" ∨ f3.methodFlag = "PUT"
    · have hn : ¬ (f3.methodFlag ≠ "GET" ∧ f3.methodFlag ≠ "PUT") := by tauto
      simp only [ndt7.measureMain, h, not_true_eq_false, if_false, hn, iff_false]
      repeat' split
      all_goals simp
    · have hn : f3.methodFlag ≠ "GET" ∧ f3.methodFlag ≠ "PUT" := by tauto
      simp [ndt7.measureMain, h, hn]
  · intro hn
    have h : ¬ (f3.methodFlag = "GET" ∨ f3.methodFlag = "PUT") := by tauto
    simp [ndt7.measureMain, h]

theorem invalid_method_fails_at_startup_witness :
    (gohttp1.measureMain 0 ⟨"127.0.0.1", 8, "POST", "8080"⟩ ⟨false, .error "refused"⟩).trace = [] ∧
    (gohttp2.measureMain 0 ⟨"127.0.0.1", 8, "cert.pem", true, "HEAD", "4443"⟩
      ⟨some [7], false, false, .error "refused"⟩).trace = [] ∧
    (ndt7.measureMain ⟨"127.0.0.1", "get", "4567"⟩ false).trace = [] :=
  ⟨(invalid_method_fails_at_startup 0 ⟨"127.0.0.1", 8, "POST", "8080"⟩ ⟨false, .error "refused"⟩
      ⟨"127.0.0.1", 8, "cert.pem", true, "HEAD", "4443"⟩ ⟨some [7], false, false, .error "refused"⟩
      ⟨"127.0.0.1", "get", "4567"⟩ false).2.1 (by decide),
   (invalid_method_fails_at_startup 0 ⟨"127.0.0.1", 8, "POST", "8080"⟩ ⟨false, .error "refused"⟩
      ⟨"127.0.0.1", 8, "cert.pem", true, "HEAD", "4443"⟩ ⟨some [7], false, false, .error "refused"⟩
      ⟨"127.0.0.1", "get", "4567"⟩ false).2.2.2.1 (by decide),
   (invalid_method_fails_at_startup 0 ⟨"127.0.0.1", 8, "POST", "8080"⟩ ⟨false, .error "refused"⟩
      ⟨"127.0.0.1", 8, "cert.pem", true, "HEAD", "4443"⟩ ⟨some [7], false, false, .error "refused"⟩
      ⟨"127.0.0.1", "get", "4567"⟩ false).2.2.2.2.2 (by decide)⟩

/-! ## The size written by the client and parsed by the server -/

theorem digitChar_spec : ∀ k, k < 10 →
    '0' ≤ Nat.digitChar k ∧ Nat.digitChar k ≤ '9' ∧ (Nat.digitChar k).toNat - '0'.toNat = k ∧
      Nat.digitChar k ≠ '+' ∧ Nat.digitChar k ≠ '-' := by
  decide

/-- One round of the digit loop on a digit character whose value fits. -/
theorem parseUintLoop_digit (k acc : Nat) (cs : List Char) (hk : k < 10)
    (hfit : acc * 10 + k < 2 ^ 64) :
    strconv.parseUintLoop (Nat.digitChar k :: cs) acc = strconv.parseUintLoop cs (acc * 10 + k) := by
  obtain ⟨h1, h2, h3, -, -⟩ := digitChar_spec k hk
  have hcut : ¬ (acc ≥ strconv.maxUint64 / 10 + 1) := by
    simp only [strconv.maxUint64]; omega
  have hm1 : acc * 10 % 2 ^ 64 = acc * 10 := Nat.mod_eq_of_lt (by omega)
  have hm2 : (acc * 10 + k) % 2 ^ 64 = acc * 10 + k := Nat.mod_eq_of_lt hfit
  have hover : ¬ (acc * 10 + k < acc * 10 ∨ acc * 10 + k > strconv.maxUint64) := by
    simp only [strconv.maxUint64]; omega
  simp only [strconv.parseUintLoop, h1, h2, and_self, if_true, h3, hcut, if_false, hm1, hm2, hover]

/-- The digit loop reads back what `Nat.toDigitsCore` wrote in front of `ds`. -/
theorem parseUintLoop_toDigitsCore :
    ∀ (fuel m : Nat) (ds : List Char), m < fuel → m < 2 ^ 64 →
      strconv.parseUintLoop (Nat.toDigitsCore 10 fuel m ds) 0 = strconv.parseUintLoop ds m := by
  intro fuel
  induction fuel with
  | zero => intro m ds h; omega
  | succ fuel ih =>
    intro m ds hm h64
    have hk : m % 10 < 10 := Nat.mod_lt _ (by decide)
    by_cases h0 : m / 10 = 0
    · have hlt : m < 10 := by omega
      have hmod : m % 10 = m := Nat.mod_eq_of_lt hlt
      simp only [Nat.toDigitsCore, h0, if_true]
      rw [parseUintLoop_digit (m % 10) 0 ds hk (by omega), hmod]
      simp
    · simp only [Nat.toDigitsCore, h0, if_false]
      rw [ih (m / 10) (Nat.digitChar (m % 10) :: ds) (by omega) (by omega)]
      rw [parseUintLoop_digit (m % 10) (m / 10) ds hk (by omega)]
      congr 1
      omega

/-- The digits `Nat.toDigitsCore` writes start with a digit character. -/
theorem toDigitsCore_head :
    ∀ (fuel m : Nat) (ds : List Char), 0 < fuel →
      ∃ k cs, k < 10 ∧ Nat.toDigitsCore 10 fuel m ds = Nat.digitChar k :: cs := by
  intro fuel
  induction fuel with
  | zero => intro m ds h; omega
  | succ fuel ih =>
    intro m ds _
    by_cases h0 : m / 10 = 0
    · exact ⟨m % 10, ds, Nat.mod_lt _ (by decide), by simp only [Nat.toDigitsCore, h0, if_true]⟩
    · simp only [Nat.toDigitsCore, h0, if_false]
      rcases Nat.eq_zero_or_pos fuel with hf | hf
      · subst hf
        exact ⟨m % 10, ds, Nat.mod_lt _ (by decide), by simp only [Nat.toDigitsCore]⟩
      · exact ih (m / 10) _ hf

/-- The size round trip: a non-negative `int64` written by `strconv.FormatInt`
is parsed back by `strconv.ParseInt` to itself, without error. -/
theorem ParseInt_FormatInt (n : Int) (h0 : 0 ≤ n) (h63 : n < 2 ^ 63) :
    strconv.ParseInt (strconv.FormatInt n) = .ok n := by
  have hn : ¬ (n < 0) := not_lt.mpr h0
  have hm : n.toNat < 2 ^ 63 := by omega
  obtain ⟨k, cs, hk, hhead⟩ := toDigitsCore_head (n.toNat + 1) n.toNat [] (by omega)
  obtain ⟨-, -, -, hplus, hminus⟩ := digitChar_spec k hk
  have hloop := parseUintLoop_toDigitsCore (n.toNat + 1) n.toNat [] (by omega) (by omega)
  have hlist : (strconv.FormatInt n).toList = Nat.digitChar k :: cs := by
    simp only [strconv.FormatInt, hn, if_false, Nat.toDigits]
    exact hhead
  have huint : strconv.ParseUint (Nat.digitChar k :: cs) = .ok n.toNat := by
    simp only [strconv.ParseUint]
    rw [← hhead, hloop]
    rfl
  have hge : ¬ (n.toNat ≥ 2 ^ 63) := by omega
  simp only [strconv.ParseInt, hlist, hplus, hminus, if_false, huint, decide_False, Bool.not_false,
    Bool.true_and, hge, Bool.false_and]
  simp [Int.toNat_of_nonneg h0]

/-! ## The drain of the response -/

theorem readCloserBody_read_nil (b : http.Body) (cnt buf : Nat) (hc : b.chunks = []) :
    io.Reader.Read (slogging.ReadCloser.mk b cnt) buf =
      ⟨[], some b.final, slogging.ReadCloser.mk b cnt⟩ := by
  simp [readCloser_read, body_read, http.Body.Read, hc]

theorem readCloserBody_read_cons (b : http.Body) (cnt buf : Nat) (c : List Nat)
    (rest : List (List Nat)) (hc : b.chunks = c :: rest) :
    io.Reader.Read (slogging.ReadCloser.mk b cnt) buf =
      ⟨c.take buf, none,
        slogging.ReadCloser.mk (bodyAfterRead b c rest buf) (cnt + (c.take buf).length)⟩ := by
  simp only [readCloser_read, body_read, http.Body.Read, hc, bodyAfterRead]

/-- One round of the drain on a body that still has a segment. -/
theorem drainLoop_step (buf : Nat) (fuel : Nat) (b : http.Body) (cnt : Nat) (written : Int)
    (c : List Nat) (rest : List (List Nat)) (hc : b.chunks = c :: rest) :
    io.copyBufferLoop (fuel + 1) io.Discard.mk (slogging.ReadCloser.mk b cnt) buf written =
      io.copyBufferLoop fuel io.Discard.mk
        (slogging.ReadCloser.mk (bodyAfterRead b c rest buf) (cnt + (c.take buf).length)) buf
        (written + ((c.take buf).length : Int)) := by
  have hread := readCloserBody_read_cons b cnt buf c rest hc
  by_cases hd : 0 < (c.take buf).length
  · have := io.copyBufferLoop_data fuel io.Discard.mk (slogging.ReadCloser.mk b cnt) buf written
      (by rw [hread]; exact hd) (by rw [hread]) (by rw [hread, discard_write])
      (by rw [hread, discard_write])
    rw [this, hread, discard_write]
  · have hz : (c.take buf).length = 0 := by omega
    have := io.copyBufferLoop_idle fuel io.Discard.mk (slogging.ReadCloser.mk b cnt) buf written
      (by rw [hread]; exact List.length_eq_zero.mp hz) (by rw [hread])
    rw [this, hread, hz]
    simp

/-- The drain of a response body ends within `fuel` rounds when `fuel` exceeds
the number of segments plus the number of bytes of the body; it takes every
byte, and reports the final error of the body unless that is `io.EOF`. -/
theorem drainLoop_result (buf : Nat) (hbuf : 0 < buf) :
    ∀ (fuel : Nat) (b : http.Body) (cnt : Nat) (written : Int),
      b.chunks.length + b.remaining < fuel →
      ∃ c, io.copyBufferLoop fuel io.Discard.mk (slogging.ReadCloser.mk b cnt) buf written = some c ∧
        c.written = written + (b.remaining : Int) ∧
        c.err = (if b.final = .EOF then none else some b.final) ∧
        c.src.inner.remaining = 0 ∧
        c.src.inner.delivered = b.delivered + b.remaining ∧
        c.src.count = cnt + b.remaining := by
  intro fuel
  induction fuel with
  | zero => intro b cnt written h; omega
  | succ fuel ih =>
    intro b cnt written hfuel
    cases hc : b.chunks with
    | nil =>
      have hread := readCloserBody_read_nil b cnt buf hc
      have hrem : b.remaining = 0 := by simp [http.Body.remaining, hc]
      refine ⟨_, io.copyBufferLoop_end fuel _ _ buf written b.final (by simp [hread])
        (by simp [hread]), ?_⟩
      simp [hread, hrem]
    | cons c rest =>
      obtain ⟨hlt, hrem', hdr⟩ := bodyAfterRead_measure b c rest buf hbuf hc
      have hstep := drainLoop_step buf fuel b cnt written c rest hc
      have hd' : (bodyAfterRead b c rest buf).delivered = b.delivered + (c.take buf).length := rfl
      have hf' : (bodyAfterRead b c rest buf).final = b.final := rfl
      have hfuel' : (bodyAfterRead b c rest buf).chunks.length +
          (bodyAfterRead b c rest buf).remaining < fuel := by omega
      obtain ⟨r, hr, h1, h2, h3, h4, h5⟩ := ih (bodyAfterRead b c rest buf)
        (cnt + (c.take buf).length) (written + ((c.take buf).length : Int)) hfuel'
      rw [← hstep] at hr
      refine ⟨r, hr, ?_⟩
      clear hstep hr ih hlt hfuel' hfuel
      generalize (c.take buf).length = d at *
      generalize bodyAfterRead b c rest buf = b' at *
      rw [h1, h2, h3, h4, h5, hd', hf', hrem']
      refine ⟨?_, rfl, rfl, ?_, ?_⟩
      · push_cast [Nat.cast_sub hdr]; omega
      · omega
      · omega

/-! ## The measure clients: the request sent and the end of the run -/

/-- The drain of `measureMain`, common to both HTTP clients. -/
theorem drainCopy_result (fuel : Nat) (body : http.Body)
    (hfuel : body.chunks.length + body.remaining < fuel) :
    ∃ c, io.CopyBuffer fuel io.Discard.mk (slogging.NewReadCloser body) (1 <<< 20) = some c ∧
      c.written = (body.remaining : Int) ∧
      c.err = (if body.final = .EOF then none else some body.final) := by
  obtain ⟨c, h, hw, he, -, -, -⟩ := drainLoop_result 1048576 (by decide) fuel body 0 0 hfuel
  refine ⟨c, ?_, ?_, he⟩
  · rw [io.CopyBuffer, bufLen_eq]; exact h
  · rw [hw]; simp

/-- The request the gohttp1 client sends once its assertions pass and the
request is built: the one request of the run. -/
theorem gohttp1_sends (fuel : Nat) (f : gohttp1.Flags) (env : gohttp1.Env)
    (hm : f.methodFlag = "GET" ∨ f.methodFlag = "PUT") (hb : f.methodFlag = "PUT" → 1 ≤ f.bytesFlag)
    (hn : env.newRequestFails = false) :
    ∃ r, Effect.send r ∈ (gohttp1.measureMain fuel f env).trace ∧
      (∀ r', Effect.send r' ∈ (gohttp1.measureMain fuel f env).trace → r' = r) ∧
      r.Method = f.methodFlag ∧
      r.URL = (url.URL.mk "http" (net.JoinHostPort f.addressFlag f.portFlag)
        ("/" ++ strconv.FormatInt f.bytesFlag)).String ∧
      (f.methodFlag = "PUT" → r.ContentLength = f.bytesFlag ∧
        r.Body = some (io.LimitReader infinite.Reader.mk f.bytesFlag)) ∧
      (f.methodFlag = "GET" → r.ContentLength = 0 ∧ r.Body = none) := by
  have hm' : ¬ ¬ (f.methodFlag = "GET" ∨ f.methodFlag = "PUT") := not_not.mpr hm
  have hb' : ¬ (f.methodFlag = "PUT" ∧ ¬ (f.bytesFlag ≥ 1)) := by
    intro h; exact h.2 (hb h.1)
  refine ⟨⟨f.methodFlag, (url.URL.mk "http" (net.JoinHostPort f.addressFlag f.portFlag)
      ("/" ++ strconv.FormatInt f.bytesFlag)).String,
    if f.methodFlag = "PUT" then some (io.LimitReader infinite.Reader.mk f.bytesFlag) else none,
    if f.methodFlag = "PUT" then f.bytesFlag else 0⟩, ?_, ?_, rfl, rfl, ?_, ?_⟩
  · simp only [gohttp1.measureMain, hm', hb', hn, if_false, Bool.false_eq_true]
    repeat' split
    all_goals simp
  · intro r'
    simp only [gohttp1.measureMain, hm', hb', hn, if_false, Bool.false_eq_true]
    repeat' split
    all_goals simp
  · intro h; simp [h]
  · intro h
    have : ¬ (f.methodFlag = "PUT") := by rw [h]; decide
    simp [this]

/-- The request the gohttp2 client sends once its assertions pass, the cert
file gives certificates and the request is built: the one request of the run. -/
theorem gohttp2_sends (fuel : Nat) (f : gohttp2.Flags) (env : gohttp2.Env) (certs : List Nat)
    (hm : f.methodFlag = "GET" ∨ f.methodFlag = "PUT") (hb : f.methodFlag = "PUT" → 1 ≤ f.bytesFlag)
    (hc : f.certFlag ≠ "") (hfile : env.certFile = some certs) (hne : certs ≠ [])
    (hn : env.newRequestFails = false) :
    ∃ r, Effect.send r ∈ (gohttp2.measureMain fuel f env).trace ∧
      (∀ r', Effect.send r' ∈ (gohttp2.measureMain fuel f env).trace → r' = r) ∧
      r.Method = f.methodFlag ∧
      r.URL = (url.URL.mk "https" (net.JoinHostPort f.addressFlag f.portFlag)
        ("/" ++ strconv.FormatInt f.bytesFlag)).String ∧
      (f.methodFlag = "PUT" → r.ContentLength = f.bytesFlag ∧
        r.Body = some (io.LimitReader infinite.Reader.mk f.bytesFlag)) ∧
      (f.methodFlag = "GET" → r.ContentLength = 0 ∧ r.Body = none) := by
  have hm' : ¬ ¬ (f.methodFlag = "GET" ∨ f.methodFlag = "PUT") := not_not.mpr hm
  have hb' : ¬ (f.methodFlag = "PUT" ∧ ¬ (f.bytesFlag ≥ 1)) := by
    intro h; exact h.2 (hb h.1)
  refine ⟨⟨f.methodFlag, (url.URL.mk "https" (net.JoinHostPort f.addressFlag f.portFlag)
      ("/" ++ strconv.FormatInt f.bytesFlag)).String,
    if f.methodFlag = "PUT" then some (io.LimitReader infinite.Reader.mk f.bytesFlag) else none,
    if f.methodFlag = "PUT" then f.bytesFlag else 0⟩, ?_, ?_, rfl, rfl, ?_, ?_⟩
  · simp only [gohttp2.measureMain, hm', hb', hc, hfile, hne, hn, if_false, Bool.false_eq_true,
      not_true_eq_false, not_false_eq_true, ne_eq]
    repeat' split
    all_goals simp
  · intro r'
    simp only [gohttp2.measureMain, hm', hb', hc, hfile, hne, hn, if_false, Bool.false_eq_true,
      not_true_eq_false, not_false_eq_true, ne_eq]
    repeat' split
    all_goals simp
  · intro h; simp [h]
  · intro h
    have : ¬ (f.methodFlag = "PUT") := by rw [h]; decide
    simp [this]

/-- The end of a gohttp1 run that got a response: the body is drained, and the
run returns unless the body ended with an error; the status plays no part. -/
theorem gohttp1_exchange (fuel : Nat) (f : gohttp1.Flags) (env : gohttp1.Env) (resp : http.Response)
    (hm : f.methodFlag = "GET" ∨ f.methodFlag = "PUT") (hb : f.methodFlag = "PUT" → 1 ≤ f.bytesFlag)
    (hn : env.newRequestFails = false) (hd : env.doResult = .ok resp)
    (hfuel : resp.Body.chunks.length + resp.Body.remaining < fuel) :
    (gohttp1.measureMain fuel f env).exit =
        some (if resp.Body.final = .EOF then .returned else .fatal) ∧
      Effect.drained (resp.Body.remaining : Int) ∈ (gohttp1.measureMain fuel f env).trace ∧
      Effect.log ⟨"response", [⟨"status", .Int resp.StatusCode⟩]⟩ ∈
        (gohttp1.measureMain fuel f env).trace := by
  have hm' : ¬ ¬ (f.methodFlag = "GET" ∨ f.methodFlag = "PUT") := not_not.mpr hm
  have hb' : ¬ (f.methodFlag = "PUT" ∧ ¬ (f.bytesFlag ≥ 1)) := by
    intro h; exact h.2 (hb h.1)
  obtain ⟨c, hc, hw, he⟩ := drainCopy_result fuel resp.Body hfuel
  simp only [gohttp1.measureMain, hm', hb', hn, hd, hc, if_false, Bool.false_eq_true]
  by_cases hf : resp.Body.final = .EOF
  · rw [if_pos hf] at he
    simp [he, hf, hw, slog.Info, slog.Int]
  · rw [if_neg hf] at he
    simp [he, hf, hw, slog.Info, slog.Int]

/-- The end of a gohttp2 run that got a response, as for gohttp1. -/
theorem gohttp2_exchange (fuel : Nat) (f : gohttp2.Flags) (env : gohttp2.Env) (certs : List Nat)
    (resp : http.Response)
    (hm : f.methodFlag = "GET" ∨ f.methodFlag = "PUT") (hb : f.methodFlag = "PUT" → 1 ≤ f.bytesFlag)
    (hc : f.certFlag ≠ "") (hfile : env.certFile = some certs) (hne : certs ≠ [])
    (hn : env.newRequestFails = false) (hd : env.doResult = .ok resp)
    (hfuel : resp.Body.chunks.length + resp.Body.remaining < fuel) :
    (gohttp2.measureMain fuel f env).exit =
        some (if resp.Body.final = .EOF then .returned else .fatal) ∧
      Effect.drained (resp.Body.remaining : Int) ∈ (gohttp2.measureMain fuel f env).trace ∧
      Effect.log ⟨"response", [⟨"status", .Int resp.StatusCode⟩, ⟨"proto", .String resp.Proto⟩,
        ⟨"alpn", .String resp.alpn⟩]⟩ ∈ (gohttp2.measureMain fuel f env).trace := by
  have hm' : ¬ ¬ (f.methodFlag = "GET" ∨ f.methodFlag = "PUT") := not_not.mpr hm
  have hb' : ¬ (f.methodFlag = "PUT" ∧ ¬ (f.bytesFlag ≥ 1)) := by
    intro h; exact h.2 (hb h.1)
  obtain ⟨c, hcopy, hw, he⟩ := drainCopy_result fuel resp.Body hfuel
  simp only [gohttp2.measureMain, hm', hb', hc, hfile, hne, hn, hd, hcopy, if_false,
    Bool.false_eq_true, not_true_eq_false, not_false_eq_true, ne_eq]
  by_cases hf : resp.Body.final = .EOF
  · rw [if_pos hf] at he
    simp [he, hf, hw, slog.Info, slog.Int, slog.String]
  · rw [if_neg hf] at he
    simp [he, hf, hw, slog.Info, slog.Int, slog.String]

/-! ## The measure clients: what is sent, and the bytes assertion -/

/-- A request is sent by the gohttp1 client only when the method and bytes
assertions passed, and it carries the method and, for PUT, the byte count. -/
theorem gohttp1_send_inv (fuel : Nat) (f : gohttp1.Flags) (env : gohttp1.Env) (r : http.ClientRequest)
    (hr : Effect.send r ∈ (gohttp1.measureMain fuel f env).trace) :
    r.Method = f.methodFlag ∧ (f.methodFlag = "PUT" → 1 ≤ f.bytesFlag ∧ r.ContentLength = f.bytesFlag) := by
  by_cases hm : f.methodFlag = "GET" ∨ f.methodFlag = "PUT"
  · by_cases hb : f.methodFlag = "PUT" ∧ f.bytesFlag < 1
    · simp [gohttp1.measureMain, hm, hb] at hr
    · by_cases hn : env.newRequestFails = true
      · simp [gohttp1.measureMain, hm, hb, hn] at hr
      · have hb' : f.methodFlag = "PUT" → 1 ≤ f.bytesFlag := by
          intro hp
          by_contra hcon
          exact hb ⟨hp, by omega⟩
        obtain ⟨r0, -, huniq, hmeth, -, hput, -⟩ :=
          gohttp1_sends fuel f env hm hb' (by simpa using hn)
        rw [huniq r hr]
        exact ⟨hmeth, fun hp => ⟨hb' hp, (hput hp).1⟩⟩
  · simp [gohttp1.measureMain, hm] at hr

/-- A request is sent by the gohttp2 client only when the method and bytes
assertions passed, and it carries the method and, for PUT, the byte count. -/
theorem gohttp2_send_inv (fuel : Nat) (f : gohttp2.Flags) (env : gohttp2.Env) (r : http.ClientRequest)
    (hr : Effect.send r ∈ (gohttp2.measureMain fuel f env).trace) :
    r.Method = f.methodFlag ∧ (f.methodFlag = "PUT" → 1 ≤ f.bytesFlag ∧ r.ContentLength = f.bytesFlag) := by
  by_cases hm : f.methodFlag = "GET" ∨ f.methodFlag = "PUT"
  · by_cases hc : f.certFlag = ""
    · simp [gohttp2.measureMain, hm, hc] at hr
    · cases hfile : env.certFile with
      | none => simp [gohttp2.measureMain, hm, hc, hfile] at hr
      | some certs =>
        by_cases hne : certs = []
        · simp [gohttp2.measureMain, hm, hc, hfile, hne] at hr
        · by_cases hb : f.methodFlag = "PUT" ∧ f.bytesFlag < 1
          · simp [gohttp2.measureMain, hm, hc, hfile, hne, hb] at hr
          · by_cases hn : env.newRequestFails = true
            · simp [gohttp2.measureMain, hm, hc, hfile, hne, hb, hn] at hr
            · have hb' : f.methodFlag = "PUT" → 1 ≤ f.bytesFlag := by
                intro hp
                by_contra hcon
                exact hb ⟨hp, by omega⟩
              obtain ⟨r0, -, huniq, hmeth, -, hput, -⟩ :=
                gohttp2_sends fuel f env certs hm hb' hc hfile hne (by simpa using hn)
              rw [huniq r hr]
              exact ⟨hmeth, fun hp => ⟨hb' hp, (hput hp).1⟩⟩
  · simp [gohttp2.measureMain, hm] at hr

/-- A run of the gohttp1 client never ends on the bytes assertion unless the
method is PUT and the byte count is below 1. -/
theorem gohttp1_bytes_assert_inv (fuel : Nat) (f : gohttp1.Flags) (env : gohttp1.Env)
    (h : (gohttp1.measureMain fuel f env).exit = some (.assertFailed .bytes)) :
    f.methodFlag = "PUT" ∧ f.bytesFlag < 1 := by
  by_contra hb
  by_cases hm : f.methodFlag = "GET" ∨ f.methodFlag = "PUT"
  · by_cases hn : env.newRequestFails = true
    · simp [gohttp1.measureMain, hm, hb, hn] at h
    · simp only [gohttp1.measureMain, hm, hn, not_true_eq_false, if_false] at h
      have hb2 : ¬ (f.methodFlag = "PUT" ∧ ¬ (f.bytesFlag ≥ 1)) := by
        intro hcon; exact hb ⟨hcon.1, by omega⟩
      simp only [hb2, if_false] at h
      revert h
      repeat' split
      all_goals simp
  · simp [gohttp1.measureMain, hm] at h

/-- A run of the gohttp2 client never ends on the bytes assertion unless the
method is PUT and the byte count is below 1. -/
theorem gohttp2_bytes_assert_inv (fuel : Nat) (f : gohttp2.Flags) (env : gohttp2.Env)
    (h : (gohttp2.measureMain fuel f env).exit = some (.assertFailed .bytes)) :
    f.methodFlag = "PUT" ∧ f.bytesFlag < 1 := by
  by_contra hb
  by_cases hm : f.methodFlag = "GET" ∨ f.methodFlag = "PUT"
  · by_cases hc : f.certFlag = ""
    · simp [gohttp2.measureMain, hm, hc] at h
    · cases hfile : env.certFile with
      | none => simp [gohttp2.measureMain, hm, hc, hfile] at h
      | some certs =>
        by_cases hne : certs = []
        · simp [gohttp2.measureMain, hm, hc, hfile, hne] at h
        · by_cases hn : env.newRequestFails = true
          · simp [gohttp2.measureMain, hm, hc, hfile, hne, hb, hn] at h
          · have hb2 : ¬ (f.methodFlag = "PUT" ∧ ¬ (f.bytesFlag ≥ 1)) := by
              intro hcon; exact hb ⟨hcon.1, by omega⟩
            simp only [gohttp2.measureMain, hm, hc, hfile, hne, hn, hb2, not_true_eq_false,
              not_false_eq_true, ne_eq, if_false] at h
            revert h
            repeat' split
            all_goals simp
  · simp [gohttp2.measureMain, hm] at h

/-- The gohttp1 client creates its request whenever the method is GET. -/
theorem gohttp1_get_creates (fuel : Nat) (f : gohttp1.Flags) (env : gohttp1.Env)
    (hm : f.methodFlag = "GET") :
    Effect.newRequest "GET"
      (url.URL.mk "http" (net.JoinHostPort f.addressFlag f.portFlag)
        ("/" ++ strconv.FormatInt f.bytesFlag)).String none ∈
      (gohttp1.measureMain fuel f env).trace := by
  have hput : ¬ (f.methodFlag = "PUT") := by rw [hm]; decide
  have hb2 : ¬ (f.methodFlag = "PUT" ∧ ¬ (f.bytesFlag ≥ 1)) := fun hcon => hput hcon.1
  have hv : ¬ ¬ (f.methodFlag = "GET" ∨ f.methodFlag = "PUT") := not_not.mpr (Or.inl hm)
  simp only [gohttp1.measureMain, hv, hb2, hput, if_false]
  rw [hm]
  repeat' split
  all_goals simp_all

/-! ## The request target of the URL a client formats -/

theorem upperhex_not_delimiter (k : Nat) :
    url.upperhex k ≠ '/' ∧ url.upperhex k ≠ '?' ∧ url.upperhex k ≠ '#' := by
  have h : ∀ j, j < 16 → ("0123456789ABCDEF".toList.getD j '0' ≠ '/' ∧
      "0123456789ABCDEF".toList.getD j '0' ≠ '?' ∧ "0123456789ABCDEF".toList.getD j '0' ≠ '#') := by
    decide
  exact h (k % 16) (Nat.mod_lt _ (by decide))

theorem percent_not_delimiter (b : Nat) (x : Char) (hx : x ∈ url.percent b) :
    x ≠ '/' ∧ x ≠ '?' ∧ x ≠ '#' := by
  simp only [url.percent, List.mem_cons, List.mem_singleton, List.mem_nil_iff, or_false] at hx
  rcases hx with h | h | h
  · subst h; decide
  · subst h; exact upperhex_not_delimiter _
  · subst h; exact upperhex_not_delimiter _

/-- The escaped host holds no `/`, `?` or `#`. -/
theorem escapeChar_host_not_delimiter (c x : Char) (hx : x ∈ url.escapeChar c .encodeHost) :
    x ≠ '/' ∧ x ≠ '?' ∧ x ≠ '#' := by
  unfold url.escapeChar at hx
  by_cases hc : c.toNat < 128
  · simp only [hc, if_true] at hx
    by_cases hs : url.shouldEscape c .encodeHost = true
    · simp only [hs, if_true] at hx
      exact percent_not_delimiter _ x hx
    · have hs' : url.shouldEscape c .encodeHost = false := by simpa using hs
      simp only [hs', Bool.false_eq_true, if_false, List.mem_singleton] at hx
      subst hx
      refine ⟨?_, ?_, ?_⟩ <;> (intro h; subst h; exact hs (by decide))
  · simp only [hc, if_false, List.mem_flatMap] at hx
    obtain ⟨b, -, hb⟩ := hx
    exact percent_not_delimiter _ x hb

theorem escape_host_not_delimiter (s : List Char) (x : Char) (hx : x ∈ url.escape s .encodeHost) :
    x ≠ '/' ∧ x ≠ '?' ∧ x ≠ '#' := by
  simp only [url.escape, List.mem_flatMap] at hx
  obtain ⟨c, -, hc⟩ := hx
  exact escapeChar_host_not_delimiter c x hc

theorem isDecimal_iff (c : Char) : isDecimal c ↔ ∃ k, k < 10 ∧ c = Nat.digitChar k := by
  simp only [isDecimal, List.mem_map, List.mem_range]
  constructor
  · rintro ⟨k, hk, h⟩; exact ⟨k, hk, h.symm⟩
  · rintro ⟨k, hk, h⟩; exact ⟨k, hk, h.symm⟩

theorem digitChar_plain : ∀ k, k < 10 →
    (Nat.digitChar k).toNat < 128 ∧ Nat.digitChar k ≠ '/' ∧ Nat.digitChar k ≠ '#' ∧
    Nat.digitChar k ≠ '?' ∧ Nat.digitChar k ≠ '%' ∧ Nat.digitChar k ≠ '.' ∧
    url.shouldEscape (Nat.digitChar k) .encodePath = false := by
  decide

theorem toDigitsCore_decimal :
    ∀ (fuel m : Nat) (ds : List Char), (∀ c ∈ ds, isDecimal c) →
      ∀ c ∈ Nat.toDigitsCore 10 fuel m ds, isDecimal c := by
  intro fuel
  induction fuel with
  | zero => intro m ds hds c hc; simp only [Nat.toDigitsCore] at hc; exact hds c hc
  | succ fuel ih =>
    intro m ds hds c hc
    have hcons : ∀ c ∈ Nat.digitChar (m % 10) :: ds, isDecimal c := by
      intro c hc
      rcases List.mem_cons.mp hc with h | h
      · exact (isDecimal_iff c).mpr ⟨m % 10, Nat.mod_lt _ (by decide), h⟩
      · exact hds c h
    by_cases h0 : m / 10 = 0
    · simp only [Nat.toDigitsCore, h0, if_true] at hc
      exact hcons c hc
    · simp only [Nat.toDigitsCore, h0, if_false] at hc
      exact ih (m / 10) _ hcons c hc

/-- The text `strconv.FormatInt` writes for a non-negative number: a digit
followed by digits. -/
theorem FormatInt_decimal (n : Int) (h0 : 0 ≤ n) :
    (∃ k cs, k < 10 ∧ (strconv.FormatInt n).toList = Nat.digitChar k :: cs) ∧
    ∀ c ∈ (strconv.FormatInt n).toList, isDecimal c := by
  have hn : ¬ (n < 0) := not_lt.mpr h0
  have hlist : (strconv.FormatInt n).toList = Nat.toDigitsCore 10 (n.toNat + 1) n.toNat [] := by
    simp only [strconv.FormatInt, hn, if_false, Nat.toDigits]
    rfl
  constructor
  · obtain ⟨k, cs, hk, hhead⟩ := toDigitsCore_head (n.toNat + 1) n.toNat [] (by omega)
    exact ⟨k, cs, hk, by rw [hlist, hhead]⟩
  · rw [hlist]
    exact toDigitsCore_decimal _ _ [] (by intro c hc; cases hc)

/-- Escaping a path leaves a `/` followed by digits as it is. -/
theorem escape_path_decimal (ds : List Char) (hds : ∀ c ∈ ds, isDecimal c) :
    url.escape ('/' :: ds) .encodePath = '/' :: ds := by
  have hchar : ∀ c, isDecimal c → url.escapeChar c .encodePath = [c] := by
    intro c hdc
    obtain ⟨k, hk, hc⟩ := (isDecimal_iff c).mp hdc
    obtain ⟨h1, -, -, -, -, -, h7⟩ := digitChar_plain k hk
    subst hc
    simp [url.escapeChar, h1, h7]
  have hlist : ∀ l : List Char, (∀ c ∈ l, isDecimal c) → url.escape l .encodePath = l := by
    intro l
    induction l with
    | nil => intro _; rfl
    | cons a t ih =>
      intro h
      have ha := hchar a (h a (List.mem_cons_self _ _))
      have ht := ih (fun c hc => h c (List.mem_cons_of_mem _ hc))
      simp only [url.escape, List.flatMap_cons] at ht ⊢
      rw [ha, ht]
      rfl
  have hslash : url.escapeChar '/' .encodePath = ['/'] := by decide
  have := hlist ds hds
  simp only [url.escape, List.flatMap_cons] at this ⊢
  rw [hslash, this]
  rfl

theorem dropWhile_append_stop {p : Char → Bool} (l t : List Char) (y : Char)
    (hl : ∀ x ∈ l, p x = true) (hy : p y = false) :
    (l ++ y :: t).dropWhile p = y :: t := by
  induction l with
  | nil => simp [List.dropWhile, hy]
  | cons a l ih =>
    have ha := hl a (List.mem_cons_self _ _)
    simp only [List.cons_append, List.dropWhile, ha]
    exact ih (fun x hx => hl x (List.mem_cons_of_mem _ hx))

theorem JoinHostPort_ne_empty (host port : String) : net.JoinHostPort host port ≠ "" := by
  intro h
  have hd := congrArg String.data h
  unfold net.JoinHostPort at hd
  split at hd <;> simp at hd

theorem string_ne_empty_of_data (s : String) (c : Char) (cs : List Char) (h : s.data = c :: cs) :
    s ≠ "" := by
  intro he
  rw [he] at h
  cases h

/-- The URL string of the clients: scheme, `://`, the escaped host, and the
path `/` followed by the digits of `n`. -/
theorem URL_String_toList (scheme host : String) (n : Int) (h0 : 0 ≤ n)
    (hs : scheme ≠ "") (hh : host ≠ "") :
    (url.URL.mk scheme host ("/" ++ strconv.FormatInt n)).String.toList =
      scheme.toList ++ ':' :: '/' :: '/' ::
        (url.escape host.toList .encodeHost ++ '/' :: (strconv.FormatInt n).toList) := by
  obtain ⟨-, hdec⟩ := FormatInt_decimal n h0
  have hpath : ("/" ++ strconv.FormatInt n) ≠ "*" := by
    intro h
    have := congrArg String.data h
    simp at this
  have hpne : ("/" ++ strconv.FormatInt n) ≠ "" :=
    string_ne_empty_of_data _ '/' (strconv.FormatInt n).data rfl
  have hesc : (url.URL.mk scheme host ("/" ++ strconv.FormatInt n)).EscapedPath =
      String.mk ('/' :: (strconv.FormatInt n).toList) := by
    simp only [url.URL.EscapedPath, hpath, if_false]
    congr 1
    exact escape_path_decimal _ hdec
  have hene : String.mk ('/' :: (strconv.FormatInt n).toList) ≠ "" :=
    string_ne_empty_of_data _ '/' (strconv.FormatInt n).toList rfl
  have hscheme : (scheme ++ ":") ++ ("//" ++ String.mk (url.escape host.toList .encodeHost)) ++ "" ≠ "" := by
    intro h
    have := congrArg String.data h
    simp at this
  simp only [url.URL.String, hesc, hs, hh, ne_eq, not_false_eq_true, if_true, true_or, hene]
  simp only [String.toList, String.data_append, List.head?_cons, not_true_eq_false, false_and,
    and_false, if_false, hscheme]
  simp

theorem getSchemeLoop_http (rest : List Char) :
    url.getSchemeLoop ("http".toList ++ ':' :: rest) [] = some ("http".toList, rest) := by
  rfl

theorem getSchemeLoop_https (rest : List Char) :
    url.getSchemeLoop ("https".toList ++ ':' :: rest) [] = some ("https".toList, rest) := by
  rfl

/-- The request target of a string `scheme://authority/digits` whose authority
holds no `/`, `?` or `#` is `/digits`. -/
theorem requestURI_of_parts (raw : String) (scheme auth ds : List Char)
    (hraw : raw.toList = scheme ++ ':' :: '/' :: '/' :: (auth ++ '/' :: ds))
    (hscheme : url.getSchemeLoop (scheme ++ ':' :: '/' :: '/' :: (auth ++ '/' :: ds)) [] =
      some (scheme, '/' :: '/' :: (auth ++ '/' :: ds)))
    (hauth : ∀ x ∈ auth, x ≠ '/' ∧ x ≠ '?' ∧ x ≠ '#')
    (hds : ∀ c ∈ ds, isDecimal c) :
    url.requestURI raw = some (String.mk ('/' :: ds)) := by
  have hdrop : (auth ++ '/' :: ds).dropWhile (fun c => decide (c ≠ '/')) = '/' :: ds :=
    dropWhile_append_stop auth ds '/' (by intro x hx; simpa using (hauth x hx).1) (by decide)
  have hall1 : (auth ++ '/' :: ds).all (fun c => decide (c ≠ '#' ∧ c ≠ '?')) = true := by
    rw [List.all_eq_true]
    intro x hx
    rcases List.mem_append.mp hx with h | h
    · have := hauth x h
      simp [this.2.1, this.2.2]
    · rcases List.mem_cons.mp h with h | h
      · subst h; decide
      · obtain ⟨k, hk, hc⟩ := (isDecimal_iff x).mp (hds x h)
        obtain ⟨-, -, h3, h4, -⟩ := digitChar_plain k hk
        subst hc
        simp [h3, h4]
  have hall2 : ('/' :: ds).all (fun c => decide (c.toNat < 128 ∧ c ≠ '%' ∧
      url.shouldEscape c .encodePath = false)) = true := by
    rw [List.all_eq_true]
    intro x hx
    rcases List.mem_cons.mp hx with h | h
    · subst h; decide
    · obtain ⟨k, hk, hc⟩ := (isDecimal_iff x).mp (hds x h)
      obtain ⟨h1, -, -, -, h5, -, h7⟩ := digitChar_plain k hk
      subst hc
      simp [h1, h5, h7]
  unfold url.requestURI
  rw [hraw, hscheme]
  simp only [hdrop, hall1, hall2, and_self, if_true]
  simp

/-- The mux gives the digits behind the `/` as the size segment. -/
theorem PathValue_decimal (k : Nat) (cs : List Char) (hk : k < 10)
    (hds : ∀ c ∈ Nat.digitChar k :: cs, isDecimal c) :
    http.PathValue (String.mk ('/' :: Nat.digitChar k :: cs)) = some (String.mk (Nat.digitChar k :: cs)) := by
  obtain ⟨-, -, -, -, -, hdot, -⟩ := digitChar_plain k hk
  have h1 : Nat.digitChar k :: cs ≠ ['.'] := by
    intro h; exact hdot (List.cons.inj h).1
  have h2 : Nat.digitChar k :: cs ≠ ['.', '.'] := by
    intro h; exact hdot (List.cons.inj h).1
  have hall : (Nat.digitChar k :: cs).all (fun c => decide (c.toNat < 128 ∧ c ≠ '/' ∧ c ≠ '#' ∧
      c ≠ '%' ∧ url.shouldEscape c .encodePath = false)) = true := by
    rw [List.all_eq_true]
    intro x hx
    obtain ⟨j, hj, hc⟩ := (isDecimal_iff x).mp (hds x hx)
    obtain ⟨a1, a2, a3, -, a5, -, a7⟩ := digitChar_plain j hj
    subst hc
    simp [a1, a2, a3, a5, a7]
  simp only [http.PathValue, String.toList]
  simp only [ne_eq, reduceCtorEq, not_false_eq_true, h1, h2, hall, and_self, if_true]

/-- The size segment the server gets from the URL a client formats for `n`
bytes: the text `strconv.FormatInt n`. -/
theorem sizeSegment_of_URL (scheme host : String) (n : Int) (h0 : 0 ≤ n)
    (hs : scheme = "http" ∨ scheme = "https") (hh : host ≠ "") :
    ∃ target, url.requestURI (url.URL.mk scheme host ("/" ++ strconv.FormatInt n)).String = some target ∧
      http.PathValue target = some (strconv.FormatInt n) := by
  obtain ⟨⟨k, cs, hk, hhead⟩, hdec⟩ := FormatInt_decimal n h0
  have hsne : scheme ≠ "" := by rcases hs with h | h <;> (rw [h]; decide)
  have hlist := URL_String_toList scheme host n h0 hsne hh
  have hsch : url.getSchemeLoop (scheme.toList ++ ':' :: '/' :: '/' ::
      (url.escape host.toList .encodeHost ++ '/' :: (strconv.FormatInt n).toList)) [] =
      some (scheme.toList, '/' :: '/' ::
        (url.escape host.toList .encodeHost ++ '/' :: (strconv.FormatInt n).toList)) := by
    rcases hs with h | h
    · rw [h]; exact getSchemeLoop_http _
    · rw [h]; exact getSchemeLoop_https _
  refine ⟨_, requestURI_of_parts _ scheme.toList (url.escape host.toList .encodeHost)
    (strconv.FormatInt n).toList hlist hsch (escape_host_not_delimiter _) hdec, ?_⟩
  rw [hhead] at hdec ⊢
  rw [PathValue_decimal k cs hk hdec]
  congr 1
  exact String.ext hhead.symm

/-! ## From the request a client sends to the request the handler gets -/

theorem buffer_write (b : bytes.Buffer) (p : List Nat) :
    io.Writer.Write b p = ⟨(p.length : Int), none, ⟨b.buf ++ p⟩⟩ := rfl

/-- The upload body of a client, read to its end into a buffer, gives `n` fill
bytes and then `io.EOF`. -/
theorem uploadBody_collect (buf : Nat) (hbuf : 0 < buf) :
    ∀ (fuel n : Nat) (acc : List Nat) (written : Int), n + buf ≤ fuel * buf →
      io.copyBufferLoop fuel (bytes.Buffer.mk acc) (io.LimitReader infinite.Reader.mk (n : Int)) buf
          written =
        some ⟨written + (n : Int), none, ⟨acc ++ List.replicate n infinite.fill⟩,
          io.LimitReader infinite.Reader.mk (0 : Int)⟩ := by
  intro fuel
  induction fuel with
  | zero => intro n acc written h; simp at h; omega
  | succ fuel ih =>
    intro n acc written hfuel
    rcases Nat.eq_zero_or_pos n with hn | hn
    · subst hn
      rw [io.copyBufferLoop_end fuel _ _ buf written .EOF (by simp [limitedInfinite_read_zero])
        (by simp [limitedInfinite_read_zero])]
      simp [limitedInfinite_read_zero]
    · have hread := limitedInfinite_read_pos n buf hn
      have hm : 0 < min buf n := by omega
      have hstep := io.copyBufferLoop_data fuel (bytes.Buffer.mk acc)
        (io.LimitReader infinite.Reader.mk (n : Int)) buf written
        (by simp [hread, hm]) (by simp [hread]) (by rw [buffer_write]) (by rw [buffer_write])
      have hfuel2 : (n - min buf n) + buf ≤ fuel * buf := by
        rw [Nat.succ_mul] at hfuel
        rcases Nat.eq_zero_or_pos fuel with hf | hf
        · subst hf; simp at hfuel; omega
        · have : buf ≤ fuel * buf := Nat.le_mul_of_pos_left buf hf
          omega
      rw [hstep]
      simp only [hread, buffer_write, List.length_replicate]
      rw [ih (n - min buf n) _ (written + ((min buf n : Nat) : Int)) hfuel2]
      have hle : min buf n ≤ n := by omega
      have hrep : List.replicate (min buf n) infinite.fill ++ List.replicate (n - min buf n) infinite.fill =
          List.replicate n infinite.fill := by
        rw [← List.replicate_add]
        congr 1
        omega
      simp only [List.append_assoc, hrep]
      congr 2
      push_cast [Nat.cast_sub hle]
      omega

/-- The request the handler gets for the request a client sends for `n` bytes:
its size segment is `strconv.FormatInt n`; it has no body for a request
without one, and for a request with the Byte Source limited to `n` and
Content-Length `n` its body holds `n` bytes. -/
theorem serverRequest_of_sent (fuel : Nat) (r : http.ClientRequest) (proto scheme host : String)
    (n : Int) (h0 : 0 ≤ n) (hs : scheme = "http" ∨ scheme = "https") (hh : host ≠ "")
    (hurl : r.URL = (url.URL.mk scheme host ("/" ++ strconv.FormatInt n)).String)
    (hbody : (r.ContentLength = 0 ∧ r.Body = none) ∨
      (r.ContentLength = n ∧ r.Body = some (io.LimitReader infinite.Reader.mk n)))
    (hfuel : n.toNat + 2 ≤ fuel) :
    ∃ req, http.serverRequest fuel r proto = some req ∧ req.size = strconv.FormatInt n ∧
      req.Proto = proto ∧ req.Body.delivered = 0 ∧
      (r.Body = none → req.Body.remaining = 0) ∧
      (r.Body ≠ none → req.Body.remaining = n.toNat ∧
        req.Body.chunks.length + req.Body.remaining < fuel) := by
  obtain ⟨target, htarget, hsize⟩ := sizeSegment_of_URL scheme host n h0 hs hh
  rcases hbody with ⟨-, hb⟩ | ⟨hcl, hb⟩
  · refine ⟨⟨strconv.FormatInt n, proto, ⟨[], .EOF, 0, false⟩⟩, ?_, rfl, rfl, rfl, ?_, ?_⟩
    · simp only [http.serverRequest, hurl, htarget, hsize, hb]
    · intro _; rfl
    · intro h; exact absurd hb h
  · have hc : n = ((n.toNat : Nat) : Int) := (Int.toNat_of_nonneg h0).symm
    have hf : n.toNat + 32768 ≤ fuel * 32768 := by omega
    have hcopy : io.CopyBuffer fuel (bytes.Buffer.mk []) (io.LimitReader infinite.Reader.mk n) (32 * 1024) =
        some ⟨n, none, ⟨List.replicate n.toNat infinite.fill⟩,
          io.LimitReader infinite.Reader.mk (0 : Int)⟩ := by
      have h := uploadBody_collect 32768 (by decide) fuel n.toNat [] 0 hf
      rw [← hc] at h
      rw [io.CopyBuffer]
      have h32 : (32 * 1024 : Nat) = 32768 := by decide
      rw [h32, h]
      simp
    refine ⟨⟨strconv.FormatInt n, proto, ⟨[List.replicate n.toNat infinite.fill], .EOF, 0, false⟩⟩,
      ?_, rfl, rfl, rfl, ?_, ?_⟩
    · simp only [http.serverRequest, hurl, htarget, hsize, hb, hcopy, hcl, and_self, if_true]
    · intro h; rw [hb] at h; cases h
    · intro _
      have hrem : http.Body.remaining ⟨[List.replicate n.toNat infinite.fill], .EOF, 0, false⟩ =
          n.toNat := by
        simp [http.Body.remaining]
      constructor
      · exact hrem
      · rw [hrem]; simp; omega

/-! ## Client and server together -/

/-- The run of the gohttp2 client on a PUT below one byte, by what the cert
steps before the bytes assertion do. -/
theorem gohttp2_put_short (fuel : Nat) (f : gohttp2.Flags) (env : gohttp2.Env)
    (hm : f.methodFlag = "PUT") (hb : f.bytesFlag < 1) :
    (f.certFlag = "" → gohttp2.measureMain fuel f env = ⟨[], some (.assertFailed .certFlag)⟩) ∧
    (f.certFlag ≠ "" → env.certFile = none →
      gohttp2.measureMain fuel f env = ⟨[.readFile f.certFlag], some .fatal⟩) ∧
    (f.certFlag ≠ "" → env.certFile = some [] →
      gohttp2.measureMain fuel f env = ⟨[.readFile f.certFlag], some (.assertFailed .certPool)⟩) ∧
    (∀ certs, f.certFlag ≠ "" → env.certFile = some certs → certs ≠ [] →
      (gohttp2.measureMain fuel f env).exit = some (.assertFailed .bytes) ∧
      ∃ t, (gohttp2.measureMain fuel f env).trace = [.readFile f.certFlag, .client t]) := by
  have hb' : ¬ (f.bytesFlag ≥ 1) := by omega
  refine ⟨?_, ?_, ?_, ?_⟩
  · intro hc
    simp [gohttp2.measureMain, hm, hc]
  · intro hc hfile
    simp [gohttp2.measureMain, hm, hc, hfile]
  · intro hc hfile
    simp [gohttp2.measureMain, hm, hc, hfile]
  · intro certs hc hfile hne
    constructor
    · simp [gohttp2.measureMain, hm, hb', hc, hfile, hne]
    · simp [gohttp2.measureMain, hm, hb', hc, hfile, hne]

/-- C12, as stated, fails for gohttp2: with method PUT, 0 bytes and a cert file
that cannot be read, the run ends in the fatal error of reading the file, not
on an assertion. -/
theorem gohttp2_put_zero_fatal_on_cert :
    gohttp2.measureMain 0 ⟨"127.0.0.1", 0, "cert.pem", false, "PUT", "4443"⟩
        ⟨none, false, false, .error "refused"⟩ =
      ⟨[.readFile "cert.pem"], some .fatal⟩ := by
  decide

/-- C12, amended: in the gohttp1 and gohttp2 clients a PUT with a byte count
below 1 stops the run before any request is created or sent: gohttp1 on the
bytes assertion with nothing done; gohttp2 on the bytes assertion when the cert
flag is not empty and the cert file gives a certificate, and otherwise on the
cert step that fails before it (the cert-flag assertion, the fatal error of
reading the file, or the assertion on the certificates). So every PUT request a
client sends declares at least one byte, while the server answers `PUT /0` with
204. A GET never ends on the bytes assertion, whatever the byte count, and in
gohttp1 its request is created. -/
theorem upload_needs_a_byte (fuel : Nat) (f1 : gohttp1.Flags) (e1 : gohttp1.Env)
    (f2 : gohttp2.Flags) (e2 : gohttp2.Env) :
    (f1.methodFlag = "PUT" → f1.bytesFlag < 1 →
      gohttp1.measureMain fuel f1 e1 = ⟨[], some (.assertFailed .bytes)⟩) ∧
    (f2.methodFlag = "PUT" → f2.bytesFlag < 1 →
      (∀ m u b, Effect.newRequest m u b ∉ (gohttp2.measureMain fuel f2 e2).trace) ∧
      (∀ r, Effect.send r ∉ (gohttp2.measureMain fuel f2 e2).trace) ∧
      (f2.certFlag = "" →
        gohttp2.measureMain fuel f2 e2 = ⟨[], some (.assertFailed .certFlag)⟩) ∧
      (f2.certFlag ≠ "" → e2.certFile = none →
        gohttp2.measureMain fuel f2 e2 = ⟨[.readFile f2.certFlag], some .fatal⟩) ∧
      (f2.certFlag ≠ "" → e2.certFile = some [] →
        gohttp2.measureMain fuel f2 e2 =
          ⟨[.readFile f2.certFlag], some (.assertFailed .certPool)⟩) ∧
      (∀ certs, f2.certFlag ≠ "" → e2.certFile = some certs → certs ≠ [] →
        (gohttp2.measureMain fuel f2 e2).exit = some (.assertFailed .bytes))) ∧
    (∀ r, Effect.send r ∈ (gohttp1.measureMain fuel f1 e1).trace → r.Method = "PUT" →
      1 ≤ r.ContentLength) ∧
    (∀ r, Effect.send r ∈ (gohttp2.measureMain fuel f2 e2).trace → r.Method = "PUT" →
      1 ≤ r.ContentLength) ∧
    (∀ room req, req.size = "0" → req.Body.chunks.length + req.Body.remaining < fuel →
      ∃ p1 p2, gohttp1.serveHandlePut fuel (.fresh room) req = some p1 ∧
        gohttp2c.serveHandlePut fuel (.fresh room) req = some p2 ∧
        p1.rw.status = http.StatusNoContent ∧ p2.rw.status = http.StatusNoContent) ∧
    (f1.methodFlag = "GET" →
      (gohttp1.measureMain fuel f1 e1).exit ≠ some (.assertFailed .bytes) ∧
      Effect.newRequest "GET"
        (url.URL.mk "http" (net.JoinHostPort f1.addressFlag f1.portFlag)
          ("/" ++ strconv.FormatInt f1.bytesFlag)).String none ∈
        (gohttp1.measureMain fuel f1 e1).trace) ∧
    (f2.methodFlag = "GET" →
      (gohttp2.measureMain fuel f2 e2).exit ≠ some (.assertFailed .bytes)) := by
  refine ⟨?_, ?_, ?_, ?_, ?_, ?_, ?_⟩
  · intro hm hb
    simp [gohttp1.measureMain, hm, hb]
  · intro hm hb
    obtain ⟨h1, h2, h3, h4⟩ := gohttp2_put_short fuel f2 e2 hm hb
    have htrace : (gohttp2.measureMain fuel f2 e2).trace = [] ∨
        (gohttp2.measureMain fuel f2 e2).trace = [.readFile f2.certFlag] ∨
        ∃ t, (gohttp2.measureMain fuel f2 e2).trace = [.readFile f2.certFlag, .client t] := by
      by_cases hc : f2.certFlag = ""
      · left; rw [h1 hc]
      · cases hfile : e2.certFile with
        | none => right; left; rw [h2 hc hfile]
        | some certs =>
          by_cases hne : certs = []
          · right; left; rw [hne] at hfile; rw [h3 hc hfile]
          · right; right; exact (h4 certs hc hfile hne).2
    refine ⟨?_, ?_, h1, h2, h3, fun certs hc hfile hne => (h4 certs hc hfile hne).1⟩
    · intro m u b
      rcases htrace with h | h | ⟨t, h⟩ <;> rw [h] <;> simp
    · intro r
      rcases htrace with h | h | ⟨t, h⟩ <;> rw [h] <;> simp
  · intro r hr hput
    obtain ⟨hmeth, hcl⟩ := gohttp1_send_inv fuel f1 e1 r hr
    obtain ⟨hb, hc⟩ := hcl (by rw [← hmeth]; exact hput)
    rw [hc]; exact hb
  · intro r hr hput
    obtain ⟨hmeth, hcl⟩ := gohttp2_send_inv fuel f2 e2 r hr
    obtain ⟨hb, hc⟩ := hcl (by rw [← hmeth]; exact hput)
    rw [hc]; exact hb
  · intro room req hsize hfuel
    have hparse : strconv.ParseInt req.size = .ok 0 := by rw [hsize]; decide
    obtain ⟨p1, h1, hrw1, -⟩ := gohttp1_put_valid fuel room req 0 hparse (le_refl 0) hfuel
    obtain ⟨p2, h2, hrw2, -⟩ := gohttp2c_put_valid fuel room req 0 hparse (le_refl 0) hfuel
    exact ⟨p1, p2, h1, h2, by rw [hrw1]; rfl, by rw [hrw2]; rfl⟩
  · intro hm
    refine ⟨?_, gohttp1_get_creates fuel f1 e1 hm⟩
    intro h
    have := (gohttp1_bytes_assert_inv fuel f1 e1 h).1
    rw [hm] at this
    exact absurd this (by decide)
  · intro hm h
    have := (gohttp2_bytes_assert_inv fuel f2 e2 h).1
    rw [hm] at this
    exact absurd this (by decide)

theorem upload_needs_a_byte_witness :
    gohttp1.measureMain 0 ⟨"127.0.0.1", 0, "PUT", "8080"⟩ ⟨false, .error "refused"⟩ =
      ⟨[], some (.assertFailed .bytes)⟩ ∧
    (gohttp2.measureMain 0 ⟨"127.0.0.1", 0, "cert.pem", true, "PUT", "4443"⟩
      ⟨some [7], false, false, .error "refused"⟩).exit = some (.assertFailed .bytes) ∧
    Effect.newRequest "GET" "http://127.0.0.1:8080/-5" none ∈
      (gohttp1.measureMain 0 ⟨"127.0.0.1", -5, "GET", "8080"⟩ ⟨false, .error "refused"⟩).trace :=
  ⟨(upload_needs_a_byte 0 ⟨"127.0.0.1", 0, "PUT", "8080"⟩ ⟨false, .error "refused"⟩
      ⟨"127.0.0.1", 0, "cert.pem", true, "PUT", "4443"⟩
      ⟨some [7], false, false, .error "refused"⟩).1 rfl (by decide),
   ((upload_needs_a_byte 0 ⟨"127.0.0.1", 0, "PUT", "8080"⟩ ⟨false, .error "refused"⟩
      ⟨"127.0.0.1", 0, "cert.pem", true, "PUT", "4443"⟩
      ⟨some [7], false, false, .error "refused"⟩).2.1 rfl (by decide)).2.2.2.2.2 [7] (by decide) rfl
      (by decide),
   ((upload_needs_a_byte 0 ⟨"127.0.0.1", -5, "GET", "8080"⟩ ⟨false, .error "refused"⟩
      ⟨"127.0.0.1", 0, "cert.pem", true, "PUT", "4443"⟩
      ⟨some [7], false, false, .error "refused"⟩).2.2.2.2.2.1 rfl).2⟩

/-! ## The end of a run -/

/-- C13: once the request of a gohttp1 or gohttp2 client is built, the end of
the run does not depend on the status of the response: whatever the status, when
`Do` gives a response the body is drained to its end and discarded, and the run
returns nil if the body ended with `io.EOF` and is fatal if it ended with any
other error; when `Do` gives an error the run is fatal. -/
theorem measure_ignores_status (fuel : Nat) (f1 : gohttp1.Flags) (e1 : gohttp1.Env)
    (f2 : gohttp2.Flags) (e2 : gohttp2.Env) (certs : List Nat)
    (hm1 : f1.methodFlag = "GET" ∨ f1.methodFlag = "PUT")
    (hb1 : f1.methodFlag = "PUT" → 1 ≤ f1.bytesFlag) (hn1 : e1.newRequestFails = false)
    (hm2 : f2.methodFlag = "GET" ∨ f2.methodFlag = "PUT")
    (hb2 : f2.methodFlag = "PUT" → 1 ≤ f2.bytesFlag)
    (hc : f2.certFlag ≠ "") (hfile : e2.certFile = some certs) (hne : certs ≠ [])
    (hn2 : e2.newRequestFails = false) :
    (∀ resp, e1.doResult = .ok resp → resp.Body.chunks.length + resp.Body.remaining < fuel →
      (gohttp1.measureMain fuel f1 e1).exit =
          some (if resp.Body.final = .EOF then .returned else .fatal) ∧
        Effect.drained (resp.Body.remaining : Int) ∈ (gohttp1.measureMain fuel f1 e1).trace) ∧
    (∀ err, e1.doResult = .error err → (gohttp1.measureMain fuel f1 e1).exit = some .fatal) ∧
    (∀ resp, e2.doResult = .ok resp → resp.Body.chunks.length + resp.Body.remaining < fuel →
      (gohttp2.measureMain fuel f2 e2).exit =
          some (if resp.Body.final = .EOF then .returned else .fatal) ∧
        Effect.drained (resp.Body.remaining : Int) ∈ (gohttp2.measureMain fuel f2 e2).trace) ∧
    (∀ err, e2.doResult = .error err → (gohttp2.measureMain fuel f2 e2).exit = some .fatal) := by
  refine ⟨?_, ?_, ?_, ?_⟩
  · intro resp hd hfuel
    obtain ⟨h1, h2, -⟩ := gohttp1_exchange fuel f1 e1 resp hm1 hb1 hn1 hd hfuel
    exact ⟨h1, h2⟩
  · intro err hd
    have hm' : ¬ ¬ (f1.methodFlag = "GET" ∨ f1.methodFlag = "PUT") := not_not.mpr hm1
    have hb' : ¬ (f1.methodFlag = "PUT" ∧ ¬ (f1.bytesFlag ≥ 1)) := by
      intro h; exact h.2 (hb1 h.1)
    simp only [gohttp1.measureMain, hm', hb', hn1, hd, if_false, Bool.false_eq_true]
  · intro resp hd hfuel
    obtain ⟨h1, h2, -⟩ := gohttp2_exchange fuel f2 e2 certs resp hm2 hb2 hc hfile hne hn2 hd hfuel
    exact ⟨h1, h2⟩
  · intro err hd
    have hm' : ¬ ¬ (f2.methodFlag = "GET" ∨ f2.methodFlag = "PUT") := not_not.mpr hm2
    have hb' : ¬ (f2.methodFlag = "PUT" ∧ ¬ (f2.bytesFlag ≥ 1)) := by
      intro h; exact h.2 (hb2 h.1)
    simp only [gohttp2.measureMain, hm', hb', hc, hfile, hne, hn2, hd, if_false,
      Bool.false_eq_true, not_true_eq_false, not_false_eq_true, ne_eq]

theorem measure_ignores_status_witness :
    (gohttp1.measureMain 6 ⟨"127.0.0.1", 3, "GET", "8080"⟩
        ⟨false, .ok ⟨400, "HTTP/1.1", "", ⟨[[1, 2], [3]], .EOF, 0, false⟩⟩⟩).exit =
      some (if (io.Error.EOF = .EOF) then .returned else .fatal) ∧
    (gohttp2.measureMain 6 ⟨"127.0.0.1", 3, "cert.pem", true, "PUT", "4443"⟩
        ⟨some [7], false, false, .ok ⟨400, "HTTP/2.0", "h2", ⟨[[1, 2], [3]], .EOF, 0, false⟩⟩⟩).exit =
      some (if (io.Error.EOF = .EOF) then .returned else .fatal) :=
  have h := measure_ignores_status 6 ⟨"127.0.0.1", 3, "GET", "8080"⟩
    ⟨false, .ok ⟨400, "HTTP/1.1", "", ⟨[[1, 2], [3]], .EOF, 0, false⟩⟩⟩
    ⟨"127.0.0.1", 3, "cert.pem", true, "PUT", "4443"⟩
    ⟨some [7], false, false, .ok ⟨400, "HTTP/2.0", "h2", ⟨[[1, 2], [3]], .EOF, 0, false⟩⟩⟩ [7]
    (by decide) (by intro _; decide) rfl (by decide) (by intro _; decide) (by decide) rfl
    (by decide) rfl
  ⟨(h.1 _ rfl (by decide)).1, (h.2.2.1 _ rfl (by decide)).1⟩

end Http2Perf
